import Mathlib

/-!
Verification of the Arepy ECS core and its Cython renderer helpers.

The repository ships the renderer helpers (`arepy/engine/renderer/opengl/utils.pyx`)
directly; those are embedded verbatim below.  The ECS core modules
(`arepy/ecs/registry.py`, `arepy/ecs/entities.py`, `arepy/ecs/query/`,
`arepy/ecs/systems.py`) are referenced by the project layout and the README but
their code is not part of this snapshot, so the corresponding definitions are
modelled from the specification's contracts (spec §3, §4, §7) and are marked as
such in their doc comments.
-/

namespace Arepy

/-- Modelled from the spec: the error taxonomy of §7 (the ECS core modules that
raise these are not in the snapshot). -/
inductive EcsError where
  | InvalidEntity
  | DuplicateComponent
  | ComponentNotFound
  | ConflictingQuery
  | UnregisteredComponentType
deriving DecidableEq, Repr

/-- Modelled from the spec: an entity identity is "a monotonically-growing
integer index plus a generation counter" (spec §3, Entity). -/
structure EntityId where
  index : Nat
  generation : Nat
deriving DecidableEq, Repr

/-- Modelled from the spec: the Entity Allocator's internal bookkeeping
(spec §4.1): per-slot generation counters, per-slot aliveness, and a free list
of dead slots available for reuse.  `arepy/ecs/entities.py` is not in the
snapshot. -/
structure Allocator where
  generations : List Nat
  alive : List Bool
  free : List Nat
deriving DecidableEq, Repr

namespace Allocator

/-- The empty allocator: no slots issued yet. -/
def empty : Allocator := ⟨[], [], []⟩

/-- Whether slot `i` is currently alive (false for unissued slots). -/
def aliveAt (a : Allocator) (i : Nat) : Bool :=
  (a.alive[i]?).getD false

/-- Current generation of slot `i` (0 for unissued slots). -/
def genAt (a : Allocator) (i : Nat) : Nat :=
  (a.generations[i]?).getD 0

/-- Modelled from the spec: `is_alive(id)` is a non-failing query; a handle is
alive iff its slot is alive and its generation is current (spec §4.1, §3). -/
def isAlive (a : Allocator) (id : EntityId) : Bool :=
  a.aliveAt id.index && (a.genAt id.index == id.generation)

/-- Modelled from the spec: `create()` returns a previously-unused identity —
"reused slot + bumped generation, or a fresh index if no slot is free" — and
marks it alive (spec §4.1). -/
def create (a : Allocator) : EntityId × Allocator :=
  match a.free with
  | [] =>
      let i := a.alive.length
      (⟨i, 0⟩,
       { generations := a.generations ++ [0],
         alive := a.alive ++ [true],
         free := [] })
  | i :: rest =>
      let g := a.genAt i + 1
      (⟨i, g⟩,
       { generations := a.generations.set i g,
         alive := a.alive.set i true,
         free := rest })

/-- Modelled from the spec: `destroy(id)` fails with `InvalidEntity` if `id` is
not currently alive; on success it marks the slot dead and frees it for reuse
(spec §4.1). -/
def destroy (a : Allocator) (id : EntityId) : Except EcsError Allocator :=
  if a.isAlive id then
    .ok { a with alive := a.alive.set id.index false,
                 free := id.index :: a.free }
  else
    .error .InvalidEntity

/-- The identities of all currently-alive entities, one per alive slot. -/
def aliveIds (a : Allocator) : List EntityId :=
  (List.range a.alive.length).filterMap fun i =>
    if a.aliveAt i then some ⟨i, a.genAt i⟩ else none

end Allocator

/-- Allocator-level operations, for quantifying over finite operation
sequences. -/
inductive AOp where
  | acreate
  | adestroy (id : EntityId)

/-- One allocator step; a failing `destroy` leaves the state unchanged. -/
def Allocator.step (a : Allocator) : AOp → Allocator
  | .acreate => (a.create).2
  | .adestroy id =>
      match a.destroy id with
      | .ok a' => a'
      | .error _ => a

/-- Run a finite sequence of allocator operations from a state. -/
def Allocator.run (a : Allocator) (ops : List AOp) : Allocator :=
  ops.foldl Allocator.step a

namespace Allocator

theorem aliveIds_index_mem {a : Allocator} {id : EntityId}
    (h : id ∈ a.aliveIds) : a.aliveAt id.index ∧ a.genAt id.index = id.generation := by
  unfold aliveIds at h
  simp only [List.mem_filterMap, List.mem_range] at h
  obtain ⟨i, _, hi⟩ := h
  by_cases hA : a.aliveAt i
  · simp [hA] at hi
    cases hi
    exact ⟨hA, rfl⟩
  · simp [hA] at hi

/-- Alive identities are pairwise distinct: two alive entities with the same
index are the same entity, since a slot determines its current generation. -/
theorem aliveIds_nodup (a : Allocator) : a.aliveIds.Nodup := by
  unfold aliveIds
  apply List.Nodup.filterMap
  · intro i j id hi hj
    by_cases hA : a.aliveAt i
    · by_cases hB : a.aliveAt j
      · simp [hA, hB] at hi hj
        have h1 : id.index = i := by rw [← hi]
        have h2 : id.index = j := by rw [← hj]
        omega
      · simp [hB] at hj
    · simp [hA] at hi
  · exact (List.nodup_range _)

end Allocator

/-! ### List helpers for the pool's sparse lookup and swap-and-truncate removal -/

/-- Position of the first occurrence of `e` in a list (the pool's sparse
index, represented positionally over the reverse index). -/
def findPos (e : Nat) : List Nat → Option Nat
  | [] => none
  | x :: xs => if x = e then some 0 else (findPos e xs).map (· + 1)

theorem findPos_eq_none_iff {e : Nat} {l : List Nat} :
    findPos e l = none ↔ e ∉ l := by
  induction l with
  | nil => simp [findPos]
  | cons x xs ih =>
    by_cases hx : x = e
    · simp [findPos, hx]
    · simp [findPos, hx, ih, Ne.symm hx]

theorem findPos_get {e : Nat} {l : List Nat} {i : Nat}
    (h : findPos e l = some i) : l[i]? = some e := by
  induction l generalizing i with
  | nil => simp [findPos] at h
  | cons x xs ih =>
    by_cases hx : x = e
    · simp [findPos, hx] at h
      simp [← h, hx]
    · simp [findPos, hx] at h
      obtain ⟨j, hj, hji⟩ := h
      rw [← hji]
      simpa using ih hj

theorem findPos_lt_length {e : Nat} {l : List Nat} {i : Nat}
    (h : findPos e l = some i) : i < l.length := by
  have h2 := findPos_get h
  by_contra hc
  rw [List.getElem?_eq_none (by omega)] at h2
  exact Option.noConfusion h2

theorem findPos_concat_self {e : Nat} {l : List Nat} (h : e ∉ l) :
    findPos e (l ++ [e]) = some l.length := by
  induction l with
  | nil => simp [findPos]
  | cons x xs ih =>
    have hx : x ≠ e := fun hc => h (hc ▸ List.mem_cons_self x xs)
    have hxs : e ∉ xs := fun hc => h (List.mem_cons_of_mem x hc)
    simp [findPos, hx, ih hxs]

/-- Swap-and-truncate removal (spec §3): overwrite position `i` with the last
element, then drop the last position. -/
def swapRemove (l : List β) (i : Nat) : List β :=
  match l.getLast? with
  | none => []
  | some last => (l.set i last).dropLast

theorem length_swapRemove (l : List β) (i : Nat) :
    (swapRemove l i).length = l.length - 1 := by
  match l with
  | [] => simp [swapRemove]
  | x :: xs =>
    have : (x :: xs).getLast? = some ((x :: xs).getLast (by simp)) := by
      simp [List.getLast?_eq_getLast]
    simp [swapRemove, this, List.length_dropLast, List.length_set]

theorem swapRemove_perm_eraseIdx {l : List β} {i : Nat} (h : i < l.length) :
    (swapRemove l i).Perm (l.eraseIdx i) := by
  induction l generalizing i with
  | nil => simp at h
  | cons x xs ih =>
    match i with
    | 0 =>
      match xs with
      | [] => simp [swapRemove]
      | y :: ys =>
        have hne : (y :: ys) ≠ [] := by simp
        have hlast : (x :: y :: ys).getLast? = some ((y :: ys).getLast hne) := by
          rw [List.getLast?_cons_cons, List.getLast?_eq_getLast]
        simp only [swapRemove, hlast, List.set_cons_zero, List.eraseIdx_cons_zero]
        have hdrop : ((y :: ys).getLast hne :: y :: ys).dropLast
            = (y :: ys).getLast hne :: (y :: ys).dropLast := by
          rw [List.dropLast_cons₂]
        rw [hdrop]
        have hcomm : (((y :: ys).getLast hne :: (y :: ys).dropLast)).Perm
            ((y :: ys).dropLast ++ [(y :: ys).getLast hne]) := by
          simpa using
            (@List.perm_append_comm _ [(y :: ys).getLast hne] ((y :: ys).dropLast))
        have hfull := List.dropLast_append_getLast hne
        rw [hfull] at hcomm
        exact hcomm
    | j + 1 =>
      have hj : j < xs.length := by simpa using h
      have hxs : xs ≠ [] := by
        intro hc; rw [hc] at hj; simp at hj
      have hlast2 : xs.getLast? = some (xs.getLast hxs) := List.getLast?_eq_getLast _ _
      have hlast : (x :: xs).getLast? = xs.getLast? := by
        obtain ⟨y, ys, rfl⟩ := List.exists_cons_of_ne_nil hxs
        rw [List.getLast?_cons_cons]
      simp only [swapRemove, hlast, hlast2, List.set_cons_succ, List.eraseIdx_cons_succ]
      have hset : xs.set j (xs.getLast hxs) ≠ [] := by
        apply List.ne_nil_of_length_pos
        rw [List.length_set]
        omega
      rw [List.dropLast_cons_of_ne_nil hset]
      refine List.Perm.cons x ?_
      have := ih hj
      simpa [swapRemove, hlast2] using this

theorem mem_eraseIdx_nodup {l : List Nat} {i e x : Nat}
    (hn : l.Nodup) (he : l[i]? = some e) :
    x ∈ l.eraseIdx i ↔ (x ∈ l ∧ x ≠ e) := by
  induction l generalizing i with
  | nil => simp at he
  | cons a xs ih =>
    match i with
    | 0 =>
      simp at he
      subst he
      simp only [List.eraseIdx_cons_zero]
      constructor
      · intro hx
        refine ⟨List.mem_cons_of_mem _ hx, ?_⟩
        intro hc; subst hc
        exact (List.nodup_cons.mp hn).1 hx
      · rintro ⟨hx, hne⟩
        rcases List.mem_cons.mp hx with h1 | h1
        · exact absurd h1 hne
        · exact h1
    | j + 1 =>
      simp only [List.getElem?_cons_succ] at he
      have hxs : xs.Nodup := (List.nodup_cons.mp hn).2
      have hae : a ≠ e := by
        intro hc; subst hc
        have : a ∈ xs := List.getElem?_mem he
        exact (List.nodup_cons.mp hn).1 this
      simp only [List.eraseIdx_cons_succ, List.mem_cons, ih hxs he]
      constructor
      · rintro (h1 | ⟨h1, h2⟩)
        · exact ⟨Or.inl h1, h1 ▸ hae⟩
        · exact ⟨Or.inr h1, h2⟩
      · rintro ⟨h1 | h1, h2⟩
        · exact Or.inl h1
        · exact Or.inr ⟨h1, h2⟩

theorem mem_swapRemove_nodup {l : List Nat} {i e x : Nat}
    (hn : l.Nodup) (he : l[i]? = some e) :
    x ∈ swapRemove l i ↔ (x ∈ l ∧ x ≠ e) := by
  have hi : i < l.length := by
    by_contra hc
    rw [List.getElem?_eq_none (by omega)] at he
    exact Option.noConfusion he
  rw [(swapRemove_perm_eraseIdx hi).mem_iff]
  exact mem_eraseIdx_nodup hn he

theorem nodup_swapRemove {l : List Nat} {i : Nat}
    (hn : l.Nodup) (hi : i < l.length) : (swapRemove l i).Nodup := by
  rw [(swapRemove_perm_eraseIdx hi).nodup_iff]
  exact hn.sublist (List.eraseIdx_sublist l i)

theorem set_concat_last (l : List β) (a b : β) :
    (l ++ [a]).set l.length b = l ++ [b] := by
  induction l with
  | nil => simp
  | cons x xs ih => simp [ih]

theorem swapRemove_concat (l : List β) (v : β) :
    swapRemove (l ++ [v]) l.length = l := by
  have hlast : (l ++ [v]).getLast? = some v := by
    simp [List.getLast?_concat]
  simp only [swapRemove, hlast, set_concat_last, List.dropLast_concat]

/-! ### Component Pool -/

/-- Modelled from the spec: a Component Pool (spec §3, §4.2) — "a dense,
contiguous sequence of component instances plus a sparse index (entity →
dense-array position) and a reverse index (dense position → entity)".
`dense` and `rev` are the dense array and the reverse index; the sparse index
is represented positionally as `findPos` over the reverse index, with which it
must agree by the §3 invariant.  `arepy/ecs/registry.py` is not in the
snapshot. -/
structure Pool (α : Type) where
  dense : List α
  rev : List Nat
deriving DecidableEq, Repr

namespace Pool

/-- A freshly created, empty pool. -/
def emptyPool : Pool α := ⟨[], []⟩

/-- Modelled from the spec: `contains(entity)` is non-failing (spec §4.2). -/
def contains (p : Pool α) (e : Nat) : Bool := decide (e ∈ p.rev)

/-- Modelled from the spec: `insert(entity, value)` fails with
`DuplicateComponent` if the entity already holds an instance of this type;
otherwise appends to the dense array and records the sparse/reverse mapping
(spec §4.2). -/
def insert (p : Pool α) (e : Nat) (v : α) : Except EcsError (Pool α) :=
  if e ∈ p.rev then .error .DuplicateComponent
  else .ok ⟨p.dense ++ [v], p.rev ++ [e]⟩

/-- Modelled from the spec: `get(entity)` fails with `ComponentNotFound` if
absent (spec §4.2). -/
def get (p : Pool α) (e : Nat) : Except EcsError α :=
  match findPos e p.rev with
  | none => .error .ComponentNotFound
  | some i =>
    match p.dense[i]? with
    | none => .error .ComponentNotFound
    | some v => .ok v

/-- Modelled from the spec: `remove(entity)` fails with `ComponentNotFound` if
absent; otherwise performs the swap-and-truncate removal of §3 and returns the
removed value (spec §4.2). -/
def remove (p : Pool α) (e : Nat) : Except EcsError (α × Pool α) :=
  match findPos e p.rev with
  | none => .error .ComponentNotFound
  | some i =>
    match p.dense[i]? with
    | none => .error .ComponentNotFound
    | some v => .ok (v, ⟨swapRemove p.dense i, swapRemove p.rev i⟩)

/-- Total removal helper used by the destruction cascade: a failing removal
leaves the pool unchanged. -/
def removeD (p : Pool α) (e : Nat) : Pool α :=
  match p.remove e with
  | .ok (_, p') => p'
  | .error _ => p

/-- The pool's structural invariant: dense array and reverse index are
aligned, and no entity occurs twice. -/
def Inv (p : Pool α) : Prop := p.dense.length = p.rev.length ∧ p.rev.Nodup

theorem inv_emptyPool : (emptyPool : Pool α).Inv := ⟨rfl, List.nodup_nil⟩

theorem insert_mem {p : Pool α} {e : Nat} {v : α} (h : e ∈ p.rev) :
    p.insert e v = .error .DuplicateComponent := by
  simp [insert, h]

theorem insert_not_mem {p : Pool α} {e : Nat} {v : α} (h : e ∉ p.rev) :
    p.insert e v = .ok ⟨p.dense ++ [v], p.rev ++ [e]⟩ := by
  simp [insert, h]

theorem inv_insert {p : Pool α} {e : Nat} {v : α} (hp : p.Inv) (h : e ∉ p.rev) :
    (Pool.mk (p.dense ++ [v]) (p.rev ++ [e])).Inv := by
  refine ⟨by simp [hp.1], ?_⟩
  simpa [List.nodup_append] using ⟨hp.2, h⟩

theorem get_not_mem {p : Pool α} {e : Nat} (h : e ∉ p.rev) :
    p.get e = .error .ComponentNotFound := by
  simp [get, findPos_eq_none_iff.mpr h]

theorem remove_not_mem {p : Pool α} {e : Nat} (h : e ∉ p.rev) :
    p.remove e = .error .ComponentNotFound := by
  simp [remove, findPos_eq_none_iff.mpr h]

theorem get_insert_self {p : Pool α} {e : Nat} {v : α} (hp : p.Inv) (h : e ∉ p.rev) :
    (Pool.mk (p.dense ++ [v]) (p.rev ++ [e])).get e = .ok v := by
  have h1 : findPos e (p.rev ++ [e]) = some p.rev.length := findPos_concat_self h
  have h2 : (p.dense ++ [v])[p.rev.length]? = some v := by
    rw [← hp.1]
    exact List.getElem?_concat_length _ _
  simp [get, h1, h2]

/-- Removing the entity that was just appended undoes the insertion exactly
and returns the inserted value. -/
theorem remove_insert_self {p : Pool α} {e : Nat} {v : α} (hp : p.Inv) (h : e ∉ p.rev) :
    (Pool.mk (p.dense ++ [v]) (p.rev ++ [e])).remove e = .ok (v, p) := by
  have h1 : findPos e (p.rev ++ [e]) = some p.rev.length := findPos_concat_self h
  have h2 : (p.dense ++ [v])[p.rev.length]? = some v := by
    rw [← hp.1]
    exact List.getElem?_concat_length _ _
  have h3 : swapRemove (p.dense ++ [v]) p.rev.length = p.dense := by
    rw [← hp.1]
    exact swapRemove_concat _ _
  have h4 : swapRemove (p.rev ++ [e]) p.rev.length = p.rev := swapRemove_concat _ _
  simp [remove, h1, h2, h3, h4]

/-- Successful removal: for a well-formed pool containing `e`, `remove`
returns some value together with a well-formed pool holding exactly the other
entities. -/
theorem remove_mem_spec {p : Pool α} {e : Nat} (hp : p.Inv) (h : e ∈ p.rev) :
    ∃ v p', p.remove e = .ok (v, p') ∧ p'.Inv ∧
      (∀ x, x ∈ p'.rev ↔ (x ∈ p.rev ∧ x ≠ e)) := by
  obtain ⟨i, hi⟩ : ∃ i, findPos e p.rev = some i := by
    cases hfp : findPos e p.rev with
    | none => exact absurd (findPos_eq_none_iff.mp hfp) (by simp [h])
    | some i => exact ⟨i, rfl⟩
  have hget : p.rev[i]? = some e := findPos_get hi
  have hlt : i < p.rev.length := findPos_lt_length hi
  have hltd : i < p.dense.length := by rw [hp.1]; exact hlt
  obtain ⟨v, hv⟩ : ∃ v, p.dense[i]? = some v := by
    cases hd : p.dense[i]? with
    | none => exact absurd (List.getElem?_eq_none_iff.mp hd) (by omega)
    | some v => exact ⟨v, rfl⟩
  refine ⟨v, ⟨swapRemove p.dense i, swapRemove p.rev i⟩, ?_, ⟨?_, ?_⟩, ?_⟩
  · simp [remove, hi, hv]
  · simp only [length_swapRemove, hp.1]
  · exact nodup_swapRemove hp.2 hlt
  · intro x
    exact mem_swapRemove_nodup hp.2 hget

end Pool

/-! ### Signature bitset operations -/

/-- Modelled from the spec: `set_bit(entity, type_id)` on a signature bitset
(spec §4.3); signatures are fixed-width bitsets with one bit per registered
component type ID (spec §3). -/
def sigSetBit (s t : Nat) : Nat := s ||| 2 ^ t

/-- Modelled from the spec: `clear_bit(entity, type_id)` on a signature bitset
(spec §4.3). -/
def sigClearBit (s t : Nat) : Nat := if s.testBit t then s ^^^ 2 ^ t else s

theorem testBit_sigSetBit (s t u : Nat) :
    (sigSetBit s t).testBit u = (s.testBit u || decide (t = u)) := by
  unfold sigSetBit
  rw [Nat.testBit_lor]
  by_cases h : t = u
  · simp [h, Nat.testBit_two_pow_self]
  · simp [Nat.testBit_two_pow_of_ne h, h]

theorem testBit_sigClearBit (s t u : Nat) :
    (sigClearBit s t).testBit u = if u = t then false else s.testBit u := by
  unfold sigClearBit
  by_cases hs : s.testBit t
  · by_cases h : u = t
    · subst h
      simp [hs, Nat.testBit_two_pow_self]
    · simp [hs, h, Nat.testBit_two_pow_of_ne (fun hc => h hc.symm)]
  · by_cases h : u = t
    · subst h
      simp [hs]
    · simp [hs, h]

theorem sig_zero_testBit (t : Nat) : (0 : Nat).testBit t = false := by
  simp

/-! ### Query specification -/

/-- Modelled from the spec: "an immutable pair of two type-ID sets — `with`
(required) and `without` (forbidden)" (spec §3), as bit masks over type IDs. -/
structure QuerySpec where
  withMask : Nat
  withoutMask : Nat
deriving DecidableEq, Repr

/-- Modelled from the spec: query construction; `with` and `without` sharing a
type ID is a configuration error (`ConflictingQuery`) rejected at construction
(spec §4.4). -/
def mkQuery (wm xm : Nat) : Except EcsError QuerySpec :=
  if wm &&& xm ≠ 0 then .error .ConflictingQuery else .ok ⟨wm, xm⟩

/-- Modelled from the spec: the §4.4 match predicate — signature `S` matches
iff `(S & W) == W` and `(S & X) == 0`. -/
def matchesSig (s wm xm : Nat) : Bool := (s &&& wm == wm) && (s &&& xm == 0)

/-! ### World / Registry -/

/-- Modelled from the spec: the World/Registry aggregate (spec §3): the Entity
Allocator, the Component Pools indexed by type ID, the Signature Registry
(entity index → bitset), and the indices of builder-held entities that are not
yet visible to queries (spec §4.5). -/
structure World (α : Type) where
  alloc : Allocator
  pools : List (Pool α)
  sigs : Nat → Nat
  pending : List Nat

/-- A fresh world with `numTypes` registered component types, empty pools and
all signatures empty. -/
def initWorld (α : Type) (numTypes : Nat) : World α :=
  ⟨Allocator.empty, List.replicate numTypes Pool.emptyPool, fun _ => 0, []⟩

namespace World

/-- Modelled from the spec: `create_entity` issues a fresh identity via the
Entity Allocator (spec §2 data flow); the entity is immediately visible. -/
def createEntity (w : World α) : EntityId × World α :=
  let (id, a') := w.alloc.create
  (id, { w with alloc := a' })

/-- Modelled from the spec: `Entity.get_component(type)` (spec §6); operations
on a dead, destroyed or stale-generation handle fail with `InvalidEntity`
(spec §7), otherwise absence fails with `ComponentNotFound` (spec §4.2). -/
def getComponent (w : World α) (id : EntityId) (t : Nat) : Except EcsError α :=
  if w.alloc.isAlive id then
    match w.pools[t]? with
    | none => .error .UnregisteredComponentType
    | some p => p.get id.index
  else .error .InvalidEntity

/-- Modelled from the spec: attaching a component writes the pool and the
signature bit as one logical step (spec §3 atomicity invariant). -/
def addComponent (w : World α) (id : EntityId) (t : Nat) (v : α) :
    Except EcsError (World α) :=
  if w.alloc.isAlive id then
    match w.pools[t]? with
    | none => .error .UnregisteredComponentType
    | some p =>
      match p.insert id.index v with
      | .error err => .error err
      | .ok p' =>
          .ok { w with pools := w.pools.set t p',
                       sigs := fun e =>
                         if e = id.index then sigSetBit (w.sigs e) t else w.sigs e }
  else .error .InvalidEntity

/-- Modelled from the spec: removing a component performs the pool's
swap-and-truncate removal, returns the removed value, and clears the signature
bit in the same logical step (spec §4.2, §3). -/
def removeComponent (w : World α) (id : EntityId) (t : Nat) :
    Except EcsError (α × World α) :=
  if w.alloc.isAlive id then
    match w.pools[t]? with
    | none => .error .UnregisteredComponentType
    | some p =>
      match p.remove id.index with
      | .error err => .error err
      | .ok (v, p') =>
          .ok (v, { w with pools := w.pools.set t p',
                           sigs := fun e =>
                             if e = id.index then sigClearBit (w.sigs e) t
                             else w.sigs e })
  else .error .InvalidEntity

/-- Apply the destruction cascade to the pool list, starting at type ID `k`:
every pool whose signature bit is set removes the entity's component. -/
def cascadePools (sig e : Nat) : Nat → List (Pool α) → List (Pool α)
  | _, [] => []
  | k, p :: rest =>
      (if sig.testBit k then p.removeD e else p) :: cascadePools sig e (k + 1) rest

/-- Modelled from the spec: `on_entity_destroyed(entity)` clears the signature
to empty and instructs every Component Pool whose bit was set to remove that
entity's component (spec §4.3). -/
def onEntityDestroyed (w : World α) (e : Nat) : World α :=
  { w with pools := cascadePools (w.sigs e) e 0 w.pools,
           sigs := fun x => if x = e then 0 else w.sigs x }

/-- Modelled from the spec: destroying an entity marks it dead in the
allocator and triggers the component cleanup cascade (spec §4.1, §4.3). -/
def destroyEntity (w : World α) (id : EntityId) : Except EcsError (World α) :=
  match w.alloc.destroy id with
  | .error err => .error err
  | .ok a' => .ok (onEntityDestroyed { w with alloc := a' } id.index)

/-- The entity indices a query may observe: alive and not held by a builder
(spec §4.5: a builder-held entity "must not be observable by any query"). -/
def visible (w : World α) : List Nat :=
  (List.range w.alloc.alive.length).filter
    (fun i => w.alloc.aliveAt i && !(w.pending.contains i))

/-- Modelled from the spec: `match(spec)` by full scan — iterate the visible
entities' signatures and test the §4.4 predicate. -/
def queryMatch (w : World α) (q : QuerySpec) : List Nat :=
  w.visible.filter (fun e => matchesSig (w.sigs e) q.withMask q.withoutMask)

end World

/-! ### Entity Builder -/

/-- Modelled from the spec: the Entity Builder stages components before a
single commit (spec §4.5). -/
structure Builder (α : Type) where
  eid : EntityId
  staged : List (Nat × α)

namespace World

/-- Modelled from the spec: `begin()` binds a builder to a freshly allocated
entity that is not yet visible to queries (spec §4.5). -/
def beginBuild (w : World α) : Builder α × World α :=
  let (id, a') := w.alloc.create
  (⟨id, []⟩, { w with alloc := a', pending := id.index :: w.pending })

end World

namespace Builder

/-- Modelled from the spec: `with_component(value)` stages a component, and
fails with `DuplicateComponent` if staged twice for the same type in the same
builder (spec §4.5). -/
def withComponent (b : Builder α) (t : Nat) (v : α) : Except EcsError (Builder α) :=
  if (b.staged.map Prod.fst).contains t then .error .DuplicateComponent
  else .ok { b with staged := b.staged ++ [(t, v)] }

end Builder

namespace World

/-- One staged attachment during commit: insert into the pool and set the
signature bit; an unknown type or duplicate leaves the world unchanged. -/
def addRaw (w : World α) (e t : Nat) (v : α) : World α :=
  match w.pools[t]? with
  | none => w
  | some p =>
    match p.insert e v with
    | .error _ => w
    | .ok p' =>
        { w with pools := w.pools.set t p',
                 sigs := fun x => if x = e then sigSetBit (w.sigs x) t else w.sigs x }

/-- Commit every staged component of the builder in staging order. -/
def commitStaged (w : World α) (e : Nat) : List (Nat × α) → World α
  | [] => w
  | (t, v) :: rest => commitStaged (w.addRaw e t v) e rest

/-- Modelled from the spec: `build()` inserts every staged component into its
pool and updates the signature in one logical step, after which the entity
becomes visible to subsequent queries (spec §4.5). -/
def build (w : World α) (b : Builder α) : World α :=
  let w' := w.commitStaged b.eid.index b.staged
  { w' with pending := w'.pending.filter (fun x => x ≠ b.eid.index) }

end World

/-! ### World operation sequences -/

/-- The world-level operations a caller can perform (spec §2 data flow). -/
inductive WOp (α : Type) where
  | create
  | destroy (id : EntityId)
  | add (id : EntityId) (t : Nat) (v : α)
  | remove (id : EntityId) (t : Nat)
  | build (staged : List (Nat × α))

/-- Stage a list of components on a builder, skipping rejected duplicates. -/
def stageList (b : Builder α) : List (Nat × α) → Builder α
  | [] => b
  | (t, v) :: rest =>
      match b.withComponent t v with
      | .ok b' => stageList b' rest
      | .error _ => stageList b rest

namespace World

/-- One world step; a failing operation is a recoverable error that leaves the
world unchanged (spec §7 propagation policy). -/
def step (w : World α) : WOp α → World α
  | .create => (w.createEntity).2
  | .destroy id =>
      match w.destroyEntity id with
      | .ok w' => w'
      | .error _ => w
  | .add id t v =>
      match w.addComponent id t v with
      | .ok w' => w'
      | .error _ => w
  | .remove id t =>
      match w.removeComponent id t with
      | .ok (_, w') => w'
      | .error _ => w
  | .build staged =>
      let bw := w.beginBuild
      bw.2.build (stageList bw.1 staged)

/-- Run a finite sequence of world operations. -/
def run (w : World α) (ops : List (WOp α)) : World α := ops.foldl step w

end World

/-! ### Invariants -/

/-- The Entity Allocator's structural invariant: aligned slot arrays and a
duplicate-free free list of valid dead slots. -/
def Allocator.Inv (a : Allocator) : Prop :=
  a.generations.length = a.alive.length ∧ a.free.Nodup ∧
  (∀ i ∈ a.free, i < a.alive.length ∧ a.alive[i]? = some false)

namespace World

/-- Whether pool `t` currently stores a component for entity index `e`. -/
def poolHas (w : World α) (t e : Nat) : Prop :=
  ∃ p, w.pools[t]? = some p ∧ e ∈ p.rev

/-- Every pool is structurally well-formed. -/
def PoolsInv (w : World α) : Prop :=
  ∀ (t : Nat) (p : Pool α), w.pools[t]? = some p → p.Inv

/-- Spec §3 invariant: "bit `i` is set if and only if the entity currently has
a component in pool `i`'s sparse index". -/
def SigSync (w : World α) : Prop :=
  ∀ e t, w.poolHas t e ↔ (w.sigs e).testBit t

/-- Dead slots carry the empty signature (destruction cleared them). -/
def DeadSig (w : World α) : Prop :=
  ∀ i, w.alloc.aliveAt i = false → w.sigs i = 0

/-- The world invariant maintained by every operation. -/
def Inv (w : World α) : Prop :=
  w.PoolsInv ∧ w.SigSync ∧ w.DeadSig ∧ w.alloc.Inv

end World

/-! ### Allocator invariant lemmas -/

namespace Allocator

theorem aliveAt_eq_true_iff {a : Allocator} {i : Nat} :
    a.aliveAt i = true ↔ a.alive[i]? = some true := by
  unfold aliveAt
  cases h : a.alive[i]? with
  | none => simp
  | some b => cases b <;> simp

theorem aliveAt_lt {a : Allocator} {i : Nat} (h : a.aliveAt i = true) :
    i < a.alive.length := by
  obtain ⟨hlt, -⟩ := List.getElem?_eq_some_iff.mp (aliveAt_eq_true_iff.mp h)
  exact hlt

theorem isAlive_aliveAt {a : Allocator} {id : EntityId} (h : a.isAlive id = true) :
    a.aliveAt id.index = true := by
  unfold isAlive at h
  exact (Bool.and_eq_true_iff.mp h).1

theorem inv_empty : Allocator.Inv Allocator.empty := by
  refine ⟨rfl, List.nodup_nil, ?_⟩
  intro i hi
  simp [Allocator.empty] at hi

theorem inv_create {a : Allocator} (ha : a.Inv) : (a.create).2.Inv := by
  obtain ⟨hlen, hnd, hvf⟩ := ha
  unfold create
  cases hf : a.free with
  | nil =>
      refine ⟨by simp [hlen], List.nodup_nil, ?_⟩
      intro i hi
      simp at hi
  | cons j rest =>
      refine ⟨by simp [hlen], (hf ▸ hnd).of_cons, ?_⟩
      intro i hi
      have hmem : i ∈ a.free := by rw [hf]; exact List.mem_cons_of_mem j hi
      obtain ⟨hilt, hidead⟩ := hvf i hmem
      have hij : j ≠ i := by
        intro hc
        subst hc
        exact (List.nodup_cons.mp (hf ▸ hnd)).1 hi
      refine ⟨by simpa using hilt, ?_⟩
      rw [List.getElem?_set_ne hij]
      exact hidead

theorem inv_destroy {a a' : Allocator} {id : EntityId}
    (ha : a.Inv) (h : a.destroy id = .ok a') : a'.Inv := by
  obtain ⟨hlen, hnd, hvf⟩ := ha
  unfold destroy at h
  split at h
  case isTrue halive =>
    cases h
    have haliveAt := isAlive_aliveAt halive
    have hlt := aliveAt_lt haliveAt
    have hnotfree : id.index ∉ a.free := by
      intro hmem
      obtain ⟨-, hdead⟩ := hvf id.index hmem
      rw [aliveAt_eq_true_iff] at haliveAt
      rw [haliveAt] at hdead
      exact Bool.noConfusion (Option.some.inj hdead)
    refine ⟨by simpa using hlen, List.nodup_cons.mpr ⟨hnotfree, hnd⟩, ?_⟩
    intro i hi
    rcases List.mem_cons.mp hi with hc | hmem
    · subst hc
      refine ⟨by simpa using hlt, ?_⟩
      rw [List.getElem?_set_self hlt]
    · obtain ⟨hilt, hidead⟩ := hvf i hmem
      refine ⟨by simpa using hilt, ?_⟩
      by_cases hij : id.index = i
      · subst hij
        rw [List.getElem?_set_self hlt]
      · rw [List.getElem?_set_ne hij]
        exact hidead
  case isFalse => exact Except.noConfusion h

/-- Slots dead after a `create` were already dead before. -/
theorem create_dead_mono {a : Allocator} {i : Nat}
    (h : (a.create).2.aliveAt i = false) : a.aliveAt i = false := by
  unfold create at h
  cases hf : a.free with
  | nil =>
      rw [hf] at h
      simp only [aliveAt] at h ⊢
      by_cases hlt : i < a.alive.length
      · rw [List.getElem?_append_left hlt] at h
        exact h
      · rw [List.getElem?_eq_none (by omega)]
        rfl
  | cons j rest =>
      rw [hf] at h
      simp only [aliveAt] at h ⊢
      by_cases hij : j = i
      · subst hij
        by_cases hlt : j < a.alive.length
        · rw [List.getElem?_set_self hlt] at h
          simp at h
        · rw [List.getElem?_eq_none (by omega)]
          rfl
      · rw [List.getElem?_set_ne hij] at h
        exact h

/-- The identity returned by `create` is alive afterwards. -/
theorem create_alive {a : Allocator} (ha : a.Inv) :
    (a.create).2.isAlive (a.create).1 = true := by
  obtain ⟨hlen, hnd, hvf⟩ := ha
  unfold create isAlive aliveAt genAt
  cases hf : a.free with
  | nil =>
      simp only
      rw [List.getElem?_concat_length, ← hlen, List.getElem?_concat_length]
      simp
  | cons j rest =>
      simp only
      obtain ⟨hjlt, -⟩ := hvf j (by rw [hf]; exact List.mem_cons_self j rest)
      rw [List.getElem?_set_self hjlt, List.getElem?_set_self (by omega : j < a.generations.length)]
      simp

/-- The identity returned by `create` was not alive beforehand. -/
theorem create_not_alive_before {a : Allocator} (ha : a.Inv) :
    a.isAlive (a.create).1 = false := by
  obtain ⟨hlen, hnd, hvf⟩ := ha
  unfold create isAlive aliveAt genAt
  cases hf : a.free with
  | nil =>
      simp only
      rw [List.getElem?_eq_none (by omega)]
      simp
  | cons j rest =>
      simp only
      obtain ⟨hjlt, hjdead⟩ := hvf j (by rw [hf]; exact List.mem_cons_self j rest)
      rw [hjdead]
      simp

end Allocator

/-! ### World invariant preservation -/

theorem listGet_lt {γ : Type _} {l : List γ} {i : Nat} {x : γ}
    (h : l[i]? = some x) : i < l.length :=
  (List.getElem?_eq_some_iff.mp h).1

namespace World

theorem inv_core_insert {w : World α} {e t : Nat} {v : α} {p : Pool α}
    (hw : w.Inv) (halive : w.alloc.aliveAt e = true)
    (hp : w.pools[t]? = some p) (he : e ∉ p.rev) :
    (World.mk w.alloc (w.pools.set t ⟨p.dense ++ [v], p.rev ++ [e]⟩)
      (fun x => if x = e then sigSetBit (w.sigs x) t else w.sigs x)
      w.pending).Inv := by
  obtain ⟨hP, hS, hD, hA⟩ := hw
  have htlt : t < w.pools.length := listGet_lt hp
  refine ⟨?_, ?_, ?_, hA⟩
  · intro u q hq
    by_cases hut : t = u
    · subst hut
      rw [List.getElem?_set_self htlt] at hq
      cases hq
      exact Pool.inv_insert (hP t p hp) he
    · rw [List.getElem?_set_ne hut] at hq
      exact hP u q hq
  · intro x u
    simp only [poolHas]
    by_cases hut : t = u
    · subst hut
      constructor
      · rintro ⟨q, hq, hx⟩
        rw [List.getElem?_set_self htlt] at hq
        cases hq
        by_cases hxe : x = e
        · subst hxe
          simp [testBit_sigSetBit]
        · simp only [hxe, if_false]
          have hxrev : x ∈ p.rev := by
            rcases List.mem_append.mp hx with h1 | h1
            · exact h1
            · simp at h1; exact absurd h1 hxe
          exact (hS x t).mp ⟨p, hp, hxrev⟩
      · intro hbit
        refine ⟨_, List.getElem?_set_self htlt, ?_⟩
        by_cases hxe : x = e
        · subst hxe
          simp
        · simp only [hxe, if_false] at hbit
          have hxrev : x ∈ p.rev := by
            obtain ⟨q, hq, hx⟩ := (hS x t).mpr hbit
            rw [hp] at hq
            cases hq
            exact hx
          exact List.mem_append.mpr (Or.inl hxrev)
    · rw [List.getElem?_set_ne hut]
      have hrhs : (if x = e then sigSetBit (w.sigs x) t else w.sigs x).testBit u
          = (w.sigs x).testBit u := by
        by_cases hxe : x = e
        · subst hxe
          simp [testBit_sigSetBit, hut]
        · simp [hxe]
      rw [hrhs]
      exact hS x u
  · intro i hdead
    have hie : i ≠ e := by
      intro hc; subst hc; rw [halive] at hdead; exact Bool.noConfusion hdead
    simp only [hie, if_false]
    exact hD i hdead

theorem inv_core_remove {w : World α} {e t : Nat} {p p' : Pool α}
    (hw : w.Inv) (hp : w.pools[t]? = some p)
    (hp' : p'.Inv) (hmem : ∀ x, x ∈ p'.rev ↔ (x ∈ p.rev ∧ x ≠ e)) :
    (World.mk w.alloc (w.pools.set t p')
      (fun x => if x = e then sigClearBit (w.sigs x) t else w.sigs x)
      w.pending).Inv := by
  obtain ⟨hP, hS, hD, hA⟩ := hw
  have htlt : t < w.pools.length := listGet_lt hp
  refine ⟨?_, ?_, ?_, hA⟩
  · intro u q hq
    by_cases hut : t = u
    · subst hut
      rw [List.getElem?_set_self htlt] at hq
      cases hq
      exact hp'
    · rw [List.getElem?_set_ne hut] at hq
      exact hP u q hq
  · intro x u
    simp only [poolHas]
    by_cases hut : t = u
    · subst hut
      constructor
      · rintro ⟨q, hq, hx⟩
        rw [List.getElem?_set_self htlt] at hq
        cases hq
        obtain ⟨hxp, hxe⟩ := (hmem x).mp hx
        simp only [hxe, if_false]
        exact (hS x t).mp ⟨p, hp, hxp⟩
      · intro hbit
        refine ⟨_, List.getElem?_set_self htlt, ?_⟩
        by_cases hxe : x = e
        · subst hxe
          rw [if_pos rfl, testBit_sigClearBit, if_pos rfl] at hbit
          exact Bool.noConfusion hbit
        · simp only [hxe, if_false] at hbit
          obtain ⟨q, hq, hx⟩ := (hS x t).mpr hbit
          rw [hp] at hq
          cases hq
          exact (hmem x).mpr ⟨hx, hxe⟩
    · rw [List.getElem?_set_ne hut]
      have hrhs : (if x = e then sigClearBit (w.sigs x) t else w.sigs x).testBit u
          = (w.sigs x).testBit u := by
        by_cases hxe : x = e
        · subst hxe
          rw [if_pos rfl, testBit_sigClearBit,
            if_neg (fun hc : u = t => hut hc.symm)]
        · rw [if_neg hxe]
      rw [hrhs]
      exact hS x u
  · intro i hdead
    by_cases hie : i = e
    · subst hie
      simp only [if_pos rfl, hD i hdead, sigClearBit]
      simp
    · simp only [hie, if_false]
      exact hD i hdead

theorem inv_addComponent {w w' : World α} {id : EntityId} {t : Nat} {v : α}
    (hw : w.Inv) (h : w.addComponent id t v = .ok w') : w'.Inv := by
  unfold addComponent at h
  split at h
  case isTrue halive =>
    split at h
    next => exact Except.noConfusion h
    next p hp =>
      split at h
      next err hins => exact Except.noConfusion h
      next p' hins =>
        cases h
        unfold Pool.insert at hins
        split at hins
        case isTrue hmem => exact Except.noConfusion hins
        case isFalse hmem =>
          cases hins
          exact inv_core_insert hw (Allocator.isAlive_aliveAt halive) hp hmem
  case isFalse => exact Except.noConfusion h

theorem inv_removeComponent {w w' : World α} {id : EntityId} {t : Nat} {v : α}
    (hw : w.Inv) (h : w.removeComponent id t = .ok (v, w')) : w'.Inv := by
  unfold removeComponent at h
  split at h
  case isTrue halive =>
    split at h
    next => exact Except.noConfusion h
    next p hp =>
      split at h
      next err hrem => exact Except.noConfusion h
      next v0 p' hrem =>
        cases h
        have hmemrev : id.index ∈ p.rev := by
          by_contra hc
          rw [Pool.remove_not_mem hc] at hrem
          exact Except.noConfusion hrem
        obtain ⟨v1, p1, heq, hinv1, hmem1⟩ :=
          Pool.remove_mem_spec (hw.1 t p hp) hmemrev
        rw [hrem] at heq
        have h2 := Except.ok.inj heq
        injection h2 with hv hp2
        subst hp2
        exact inv_core_remove hw hp hinv1 hmem1
  case isFalse => exact Except.noConfusion h

end World

/-! ### Destruction cascade lemmas -/

namespace Allocator

theorem destroy_fields {a a' : Allocator} {id : EntityId}
    (h : a.destroy id = .ok a') :
    a.isAlive id = true ∧ a'.alive = a.alive.set id.index false ∧
    a'.generations = a.generations ∧ a'.free = id.index :: a.free := by
  unfold destroy at h
  split at h
  case isTrue halive => cases h; exact ⟨halive, rfl, rfl, rfl⟩
  case isFalse => exact Except.noConfusion h

theorem aliveAt_destroy {a a' : Allocator} {id : EntityId}
    (h : a.destroy id = .ok a') (i : Nat) :
    a'.aliveAt i = if i = id.index then false else a.aliveAt i := by
  obtain ⟨halive, hal, -, -⟩ := destroy_fields h
  have hlt := aliveAt_lt (isAlive_aliveAt halive)
  by_cases hie : i = id.index
  · subst hie
    rw [if_pos rfl]
    unfold aliveAt
    rw [hal, List.getElem?_set_self hlt]
    rfl
  · rw [if_neg hie]
    unfold aliveAt
    rw [hal, List.getElem?_set_ne (fun hc => hie hc.symm)]

theorem isAlive_after_destroy {a a' : Allocator} {id : EntityId}
    (h : a.destroy id = .ok a') : a'.isAlive id = false := by
  unfold isAlive
  rw [aliveAt_destroy h, if_pos rfl, Bool.false_and]

end Allocator

namespace Pool

theorem removeD_spec {p : Pool α} {e : Nat} (hp : p.Inv) :
    (p.removeD e).Inv ∧ ∀ x, (x ∈ (p.removeD e).rev ↔ (x ∈ p.rev ∧ x ≠ e)) := by
  by_cases hmem : e ∈ p.rev
  · obtain ⟨v, p', heq, hinv, hm⟩ := remove_mem_spec hp hmem
    unfold removeD
    rw [heq]
    exact ⟨hinv, hm⟩
  · unfold removeD
    rw [remove_not_mem hmem]
    refine ⟨hp, ?_⟩
    intro x
    constructor
    · intro hx
      exact ⟨hx, fun hc => hmem (hc ▸ hx)⟩
    · exact fun h => h.1

end Pool

namespace World

theorem cascadePools_getElem (sig e : Nat) (l : List (Pool α)) :
    ∀ (k j : Nat),
    (cascadePools sig e k l)[j]? =
      (l[j]?).map (fun p => if sig.testBit (k + j) then p.removeD e else p) := by
  induction l with
  | nil => intro k j; simp [cascadePools]
  | cons p rest ih =>
    intro k j
    match j with
    | 0 => simp [cascadePools]
    | j + 1 =>
      simp only [cascadePools, List.getElem?_cons_succ]
      rw [ih (k + 1) j]
      have hkj : k + 1 + j = k + (j + 1) := by omega
      rw [hkj]

theorem cascadePools_getElem_zero (sig e : Nat) (l : List (Pool α)) (u : Nat) :
    (cascadePools sig e 0 l)[u]? =
      (l[u]?).map (fun p => if sig.testBit u then p.removeD e else p) := by
  rw [cascadePools_getElem]
  simp

theorem onEntityDestroyed_pools_getElem (w : World α) (e u : Nat) :
    (w.onEntityDestroyed e).pools[u]? =
      (w.pools[u]?).map
        (fun p => if (w.sigs e).testBit u then p.removeD e else p) := by
  simp only [onEntityDestroyed]
  rw [cascadePools_getElem_zero]

theorem inv_onEntityDestroyed {w : World α} (e : Nat)
    (hP : w.PoolsInv) (hS : w.SigSync) :
    PoolsInv (w.onEntityDestroyed e) ∧ SigSync (w.onEntityDestroyed e) := by
  have hchar : ∀ (u : Nat) (p : Pool α), w.pools[u]? = some p → ∀ x,
      (x ∈ (if (w.sigs e).testBit u then p.removeD e else p).rev
        ↔ (x ∈ p.rev ∧ x ≠ e)) := by
    intro u p hp x
    by_cases hbit : (w.sigs e).testBit u
    · rw [if_pos hbit]
      exact (Pool.removeD_spec (hP u p hp)).2 x
    · rw [if_neg hbit]
      constructor
      · intro hx
        refine ⟨hx, ?_⟩
        intro hc; subst hc
        exact hbit ((hS _ u).mp ⟨p, hp, hx⟩)
      · exact fun hh => hh.1
  have hsigs : ∀ x, (w.onEntityDestroyed e).sigs x = if x = e then 0 else w.sigs x := by
    intro x
    simp [onEntityDestroyed]
  constructor
  · intro u q hq
    rw [onEntityDestroyed_pools_getElem] at hq
    cases hp : w.pools[u]? with
    | none => rw [hp] at hq; exact Option.noConfusion hq
    | some p =>
      rw [hp] at hq
      have hq2 : (if (w.sigs e).testBit u then p.removeD e else p) = q := by
        simpa using hq
      rw [← hq2]
      by_cases hbit : (w.sigs e).testBit u
      · rw [if_pos hbit]
        exact (Pool.removeD_spec (hP u p hp)).1
      · rw [if_neg hbit]
        exact hP u p hp
  · intro x u
    rw [hsigs x]
    constructor
    · rintro ⟨q, hq, hx⟩
      rw [onEntityDestroyed_pools_getElem] at hq
      cases hp : w.pools[u]? with
      | none => rw [hp] at hq; exact Option.noConfusion hq
      | some p =>
        rw [hp] at hq
        have hq2 : (if (w.sigs e).testBit u then p.removeD e else p) = q := by
          simpa using hq
        rw [← hq2] at hx
        obtain ⟨hxp, hxe⟩ := (hchar u p hp x).mp hx
        rw [if_neg hxe]
        exact (hS x u).mp ⟨p, hp, hxp⟩
    · intro hbit
      by_cases hxe : x = e
      · rw [if_pos hxe, sig_zero_testBit] at hbit
        exact Bool.noConfusion hbit
      · rw [if_neg hxe] at hbit
        obtain ⟨p, hp, hx⟩ := (hS x u).mpr hbit
        refine ⟨(if (w.sigs e).testBit u then p.removeD e else p), ?_, ?_⟩
        · rw [onEntityDestroyed_pools_getElem, hp]
          rfl
        · exact (hchar u p hp x).mpr ⟨hx, hxe⟩

theorem inv_destroyEntity {w w' : World α} {id : EntityId}
    (hw : w.Inv) (h : w.destroyEntity id = .ok w') : w'.Inv := by
  unfold destroyEntity at h
  split at h
  next err hdes => exact Except.noConfusion h
  next a' hdes =>
    cases h
    obtain ⟨hP, hS, hD, hA⟩ := hw
    have hAinv : a'.Inv := Allocator.inv_destroy hA hdes
    have hP1 : PoolsInv { w with alloc := a' } := hP
    have hS1 : SigSync { w with alloc := a' } := hS
    obtain ⟨hP2, hS2⟩ := inv_onEntityDestroyed id.index hP1 hS1
    refine ⟨hP2, hS2, ?_, hAinv⟩
    intro i hdead
    show (if i = id.index then 0 else w.sigs i) = 0
    by_cases hie : i = id.index
    · rw [if_pos hie]
    · rw [if_neg hie]
      apply hD
      have hal := Allocator.aliveAt_destroy hdes i
      rw [if_neg hie] at hal
      have hdead2 : a'.aliveAt i = false := hdead
      rw [hal] at hdead2
      exact hdead2

end World

/-! ### Remaining operation preservation and reachability -/

namespace World

theorem inv_createEntity {w : World α} (hw : w.Inv) : (w.createEntity).2.Inv := by
  obtain ⟨hP, hS, hD, hA⟩ := hw
  refine ⟨hP, hS, ?_, Allocator.inv_create hA⟩
  intro i hdead
  exact hD i (Allocator.create_dead_mono hdead)

theorem inv_beginBuild {w : World α} (hw : w.Inv) : (w.beginBuild).2.Inv := by
  obtain ⟨hP, hS, hD, hA⟩ := hw
  refine ⟨hP, hS, ?_, Allocator.inv_create hA⟩
  intro i hdead
  exact hD i (Allocator.create_dead_mono hdead)

theorem inv_addRaw {w : World α} {e t : Nat} {v : α}
    (hw : w.Inv) (halive : w.alloc.aliveAt e = true) : (w.addRaw e t v).Inv := by
  unfold addRaw
  split
  next => exact hw
  next p hp =>
    split
    next err hins => exact hw
    next p' hins =>
      unfold Pool.insert at hins
      split at hins
      case isTrue hmem => exact Except.noConfusion hins
      case isFalse hmem =>
        cases hins
        exact inv_core_insert hw halive hp hmem

theorem addRaw_alloc (w : World α) (e t : Nat) (v : α) :
    (w.addRaw e t v).alloc = w.alloc := by
  unfold addRaw
  split
  next => rfl
  next p hp =>
    split
    next err hins => rfl
    next p' hins => rfl

theorem addRaw_pending (w : World α) (e t : Nat) (v : α) :
    (w.addRaw e t v).pending = w.pending := by
  unfold addRaw
  split
  next => rfl
  next p hp =>
    split
    next err hins => rfl
    next p' hins => rfl

theorem commitStaged_cons (w : World α) (e t : Nat) (v : α)
    (rest : List (Nat × α)) :
    w.commitStaged e ((t, v) :: rest) = (w.addRaw e t v).commitStaged e rest := rfl

theorem commitStaged_alloc (w : World α) (e : Nat) (staged : List (Nat × α)) :
    (w.commitStaged e staged).alloc = w.alloc := by
  induction staged generalizing w with
  | nil => rfl
  | cons tv rest ih =>
    obtain ⟨t, v⟩ := tv
    rw [commitStaged_cons, ih, addRaw_alloc]

theorem commitStaged_pending (w : World α) (e : Nat) (staged : List (Nat × α)) :
    (w.commitStaged e staged).pending = w.pending := by
  induction staged generalizing w with
  | nil => rfl
  | cons tv rest ih =>
    obtain ⟨t, v⟩ := tv
    rw [commitStaged_cons, ih, addRaw_pending]

theorem inv_commitStaged {w : World α} {e : Nat} (staged : List (Nat × α))
    (hw : w.Inv) (halive : w.alloc.aliveAt e = true) :
    (w.commitStaged e staged).Inv := by
  induction staged generalizing w with
  | nil => exact hw
  | cons tv rest ih =>
    obtain ⟨t, v⟩ := tv
    rw [commitStaged_cons]
    apply ih
    · exact inv_addRaw hw halive
    · rw [addRaw_alloc]
      exact halive

theorem inv_pending_irrelevant {w : World α} (hw : w.Inv) (l : List Nat) :
    (World.mk w.alloc w.pools w.sigs l).Inv := by
  obtain ⟨hP, hS, hD, hA⟩ := hw
  exact ⟨hP, hS, hD, hA⟩

theorem inv_build {w : World α} {b : Builder α}
    (hw : w.Inv) (halive : w.alloc.aliveAt b.eid.index = true) :
    (w.build b).Inv := by
  unfold build
  exact inv_pending_irrelevant (inv_commitStaged b.staged hw halive) _

theorem withComponent_eid {b b' : Builder α} {t : Nat} {v : α}
    (h : b.withComponent t v = .ok b') : b'.eid = b.eid := by
  unfold Builder.withComponent at h
  split at h
  case isTrue => exact Except.noConfusion h
  case isFalse =>
    cases h
    rfl

theorem stageList_eid (b : Builder α) (staged : List (Nat × α)) :
    (stageList b staged).eid = b.eid := by
  induction staged generalizing b with
  | nil => rfl
  | cons tv rest ih =>
    obtain ⟨t, v⟩ := tv
    show (match b.withComponent t v with
      | .ok b' => stageList b' rest
      | .error _ => stageList b rest).eid = b.eid
    cases hbc : b.withComponent t v with
    | ok b' =>
      rw [ih b']
      exact withComponent_eid hbc
    | error err => exact ih b

theorem inv_step {w : World α} (hw : w.Inv) (op : WOp α) : (w.step op).Inv := by
  cases op with
  | create => exact inv_createEntity hw
  | destroy id =>
    show (match w.destroyEntity id with
      | .ok w' => w'
      | .error _ => w).Inv
    split
    next w2 hd => exact inv_destroyEntity hw hd
    next err hd => exact hw
  | add id t v =>
    show (match w.addComponent id t v with
      | .ok w' => w'
      | .error _ => w).Inv
    split
    next w2 hd => exact inv_addComponent hw hd
    next err hd => exact hw
  | remove id t =>
    show (match w.removeComponent id t with
      | .ok (_, w') => w'
      | .error _ => w).Inv
    split
    next v2 w2 hd => exact inv_removeComponent hw hd
    next err hd => exact hw
  | build staged =>
    have h1 : (w.beginBuild).2.Inv := inv_beginBuild hw
    have halive0 := Allocator.create_alive hw.2.2.2
    have halive : (w.beginBuild).2.alloc.aliveAt
        (stageList (w.beginBuild).1 staged).eid.index = true := by
      rw [stageList_eid]
      exact Allocator.isAlive_aliveAt halive0
    exact inv_build h1 halive

theorem run_cons (w : World α) (op : WOp α) (rest : List (WOp α)) :
    w.run (op :: rest) = (w.step op).run rest := rfl

theorem inv_run {w : World α} (hw : w.Inv) (ops : List (WOp α)) :
    (w.run ops).Inv := by
  induction ops generalizing w with
  | nil => exact hw
  | cons op rest ih => exact ih (inv_step hw op)

end World

theorem inv_initWorld (α : Type) (n : Nat) : (initWorld α n).Inv := by
  refine ⟨?_, ?_, ?_, Allocator.inv_empty⟩
  · intro t p hp
    simp only [initWorld] at hp
    rw [List.getElem?_replicate] at hp
    split at hp
    · cases hp
      exact Pool.inv_emptyPool
    · exact Option.noConfusion hp
  · intro e t
    constructor
    · rintro ⟨p, hp, hx⟩
      simp only [initWorld] at hp
      rw [List.getElem?_replicate] at hp
      split at hp
      · cases hp
        simp [Pool.emptyPool] at hx
      · exact Option.noConfusion hp
    · intro hb
      have hb2 : Nat.testBit 0 t = true := hb
      rw [sig_zero_testBit] at hb2
      exact Bool.noConfusion hb2
  · intro i hdead
    rfl

/-! ### System Pipeline -/

/-- Modelled from the spec: the fixed, ordered enumeration of frame stages
(spec §4.6). -/
inductive Stage where
  | INIT
  | UPDATE
  | RENDER
  | EXIT
deriving DecidableEq, Repr

/-- Modelled from the spec: a system registration entry — a (stage, query
specification, callable) triple held in insertion order (spec §3); `sysId`
names the callable for observation purposes. -/
structure SysEntry (α : Type) where
  stage : Stage
  sysId : Nat
  query : QuerySpec
  body : List Nat → World α → Except EcsError (World α)

/-- One recorded invocation: which system ran, its declared query, the world
state at invocation time and the entity list passed to the callable. -/
structure TraceEntry (α : Type) where
  sysId : Nat
  query : QuerySpec
  worldAt : World α
  passed : List Nat

/-- The observable outcome of `run_stage`: final world, surfaced failures in
order, and the invocation trace in order. -/
structure RunResult (α : Type) where
  world : World α
  failures : List (Nat × EcsError)
  trace : List (TraceEntry α)

/-- Modelled from the spec: `run_stage(stage, ...)` invokes every registered
callable for that stage in registration order, passing the result of the
callable's declared query re-evaluated fresh on each invocation; a failing
callable is recorded and the pipeline continues with the remaining systems
(spec §4.6, §7). -/
def runStage (st : Stage) (w : World α) : List (SysEntry α) → RunResult α
  | [] => ⟨w, [], []⟩
  | ent :: rest =>
    if ent.stage = st then
      let ents := w.queryMatch ent.query
      match ent.body ents w with
      | .ok w2 =>
          let r := runStage st w2 rest
          ⟨r.world, r.failures, ⟨ent.sysId, ent.query, w, ents⟩ :: r.trace⟩
      | .error err =>
          let r := runStage st w rest
          ⟨r.world, (ent.sysId, err) :: r.failures,
           ⟨ent.sysId, ent.query, w, ents⟩ :: r.trace⟩
    else runStage st w rest

/-! ### Renderer helpers, embedded from `arepy/engine/renderer/opengl/utils.pyx` -/

/-- `is_outside_screen` (utils.pyx, lines 40–49); the C `float` scalars are
modelled as rationals, and the three tuple arguments mirror the source. -/
def is_outside_screen (rectangle_position rectangle_size screen_size : ℚ × ℚ) :
    Bool :=
  let x := rectangle_position.1
  let y := rectangle_position.2
  let width := rectangle_size.1
  let height := rectangle_size.2
  let screen_width := screen_size.1
  let screen_height := screen_size.2
  decide (x + width < 0) || decide (x > screen_width) ||
    decide (y + height < 0) || decide (y > screen_height)

/-- Two's-complement wrap to the value range of a 32-bit C `int`: the
behaviour of the `cdef public int` fields of `RendererData` on arithmetic
overflow. -/
def wrap32 (z : Int) : Int := (z + 2 ^ 31) % 2 ^ 32 - 2 ^ 31

/-- `RendererData` (utils.pyx, lines 6–28): the quads buffer holds vertex rows
of an abstract type `V`; `index_count` (line 8) and `quads_buffer_index`
(line 13) are wrapping 32-bit `cdef public int` fields, modelled as `Int`
(negative values included) with every arithmetic update passed through
`wrap32`; the remaining fields are machine integers and the texture-slot
list. -/
structure RendererData (V : Type) where
  index_data : List Int
  index_count : Int
  texture_vbo : Int
  texture_vao : Int
  texture_ibo : Int
  quads_buffer : List V
  quads_buffer_index : Int
  white_texture : Int
  white_texture_slot : Int
  texture_slots : List Int
  texture_slot_index : Int

/-- One iteration of the inner loop of `set_vertex_data`: write the current
raw vertex at `quads_buffer_index` and advance the index in wrapping 32-bit
arithmetic.  A negative index is out of contract in the source
(`@wraparound(False)` disables negative indexing), so the embedding reads the
index through `Int.toNat`. -/
def writeVertex (rd : RendererData V) (v : V) : RendererData V :=
  { rd with quads_buffer := rd.quads_buffer.set rd.quads_buffer_index.toNat v,
            quads_buffer_index := wrap32 (rd.quads_buffer_index + 1) }

/-- The inner `for _ in vertex_range` loop of `set_vertex_data`: four
consecutive writes of the same raw vertex. -/
def writeQuad (rd : RendererData V) (v : V) : RendererData V :=
  (List.range 4).foldl (fun acc _ => writeVertex acc v) rd

/-- `set_vertex_data` (utils.pyx, lines 83–94): for each raw vertex, four
consecutive buffer writes followed by `index_count += 6` in wrapping 32-bit
arithmetic. -/
def set_vertex_data (raw_vertices : List V) (renderer_data : RendererData V) :
    RendererData V :=
  raw_vertices.foldl
    (fun rd v =>
      let rd2 := writeQuad rd v
      { rd2 with index_count := wrap32 (rd2.index_count + 6) })
    renderer_data

/-- `update_vertex_transforms` (utils.pyx, lines 96–106): reset the buffer
index to zero, then perform the same quad writes without touching
`index_count`. -/
def update_vertex_transforms (raw_vertices : List V) (renderer_data : RendererData V) :
    RendererData V :=
  raw_vertices.foldl (fun rd v => writeQuad rd v)
    { renderer_data with quads_buffer_index := 0 }

/-! ### Claim theorems -/

/-- C1: for every entity signature S and query specification with required set
W and forbidden set X such that W and X are disjoint, the Query Engine's match
operation returns a scanned entity iff `(S &&& W) = W` and `(S &&& X) = 0`;
in particular an empty `with` mask with a non-empty `without` mask matches
exactly the entities having none of the excluded types. -/
theorem query_match_iff {α : Type} (w : World α) (wm xm e : Nat)
    (_hdisj : wm &&& xm = 0) (hvis : e ∈ w.visible) :
    (e ∈ w.queryMatch ⟨wm, xm⟩
      ↔ ((w.sigs e) &&& wm = wm ∧ (w.sigs e) &&& xm = 0))
    ∧ (wm = 0 → (e ∈ w.queryMatch ⟨0, xm⟩ ↔ (w.sigs e) &&& xm = 0)) := by
  have hmain : ∀ wm2 xm2, e ∈ w.queryMatch ⟨wm2, xm2⟩
      ↔ ((w.sigs e) &&& wm2 = wm2 ∧ (w.sigs e) &&& xm2 = 0) := by
    intro wm2 xm2
    unfold World.queryMatch
    rw [List.mem_filter]
    simp [hvis, matchesSig]
  refine ⟨hmain wm xm, ?_⟩
  intro h0
  rw [hmain 0 xm]
  simp

theorem query_match_iff_witness :
    (1 &&& 2 = 0)
    ∧ (0 ∈ ((initWorld Nat 2).run [WOp.create, WOp.add ⟨0, 0⟩ 0 7]).visible)
    ∧ ((0 ∈ ((initWorld Nat 2).run [WOp.create, WOp.add ⟨0, 0⟩ 0 7]).queryMatch ⟨1, 2⟩
        ↔ ((((initWorld Nat 2).run [WOp.create, WOp.add ⟨0, 0⟩ 0 7]).sigs 0) &&& 1 = 1
          ∧ (((initWorld Nat 2).run [WOp.create, WOp.add ⟨0, 0⟩ 0 7]).sigs 0) &&& 2 = 0))) :=
  ⟨by decide, by decide,
    (query_match_iff ((initWorld Nat 2).run [WOp.create, WOp.add ⟨0, 0⟩ 0 7]) 1 2 0
      (by decide) (by decide)).1⟩

/-- C2: after every finite sequence of Entity Allocator create/destroy
operations, no two simultaneously-alive entities share an identity, and
`destroy` on a handle that is not currently alive fails with `InvalidEntity`
and leaves the allocator state unchanged. -/
theorem allocator_unique_destroy_invalid (ops : List AOp) (id : EntityId)
    (h : (Allocator.empty.run ops).isAlive id = false) :
    (Allocator.empty.run ops).aliveIds.Nodup
    ∧ (Allocator.empty.run ops).destroy id = .error .InvalidEntity
    ∧ (Allocator.empty.run ops).step (AOp.adestroy id) = Allocator.empty.run ops := by
  have hdes : (Allocator.empty.run ops).destroy id = .error .InvalidEntity := by
    unfold Allocator.destroy
    rw [h]
    rfl
  refine ⟨Allocator.aliveIds_nodup _, hdes, ?_⟩
  show (match (Allocator.empty.run ops).destroy id with
    | Except.ok a' => a'
    | Except.error _ => Allocator.empty.run ops) = Allocator.empty.run ops
  rw [hdes]

theorem allocator_unique_destroy_invalid_witness :
    ((Allocator.empty.run [AOp.acreate, AOp.adestroy ⟨0, 0⟩, AOp.acreate]).isAlive ⟨0, 0⟩
        = false)
    ∧ (Allocator.empty.run [AOp.acreate, AOp.adestroy ⟨0, 0⟩, AOp.acreate]).aliveIds.Nodup
    ∧ (Allocator.empty.run [AOp.acreate, AOp.adestroy ⟨0, 0⟩, AOp.acreate]).destroy ⟨0, 0⟩
        = .error .InvalidEntity
    ∧ (Allocator.empty.run [AOp.acreate, AOp.adestroy ⟨0, 0⟩, AOp.acreate]).step
        (AOp.adestroy ⟨0, 0⟩)
        = Allocator.empty.run [AOp.acreate, AOp.adestroy ⟨0, 0⟩, AOp.acreate] :=
  ⟨by decide,
    allocator_unique_destroy_invalid [AOp.acreate, AOp.adestroy ⟨0, 0⟩, AOp.acreate]
      ⟨0, 0⟩ (by decide)⟩

/-- C4: a query specification whose `with` and `without` masks share a type ID
fails at construction with `ConflictingQuery`, before any matching is
evaluated. -/
theorem mkQuery_conflicting (wm xm : Nat) (h : wm &&& xm ≠ 0) :
    mkQuery wm xm = .error .ConflictingQuery := by
  unfold mkQuery
  rw [if_pos h]

theorem mkQuery_conflicting_witness :
    (1 &&& 1 ≠ 0) ∧ mkQuery 1 1 = .error .ConflictingQuery :=
  ⟨by decide, mkQuery_conflicting 1 1 (by decide)⟩

/-- C9: `is_outside_screen` returns true iff `x + width < 0` or
`x > screen_width` or `y + height < 0` or `y > screen_height`; it is a pure
predicate over its arguments. -/
theorem is_outside_screen_iff (rectangle_position rectangle_size screen_size : ℚ × ℚ) :
    is_outside_screen rectangle_position rectangle_size screen_size = true
      ↔ (rectangle_position.1 + rectangle_size.1 < 0
        ∨ rectangle_position.1 > screen_size.1
        ∨ rectangle_position.2 + rectangle_size.2 < 0
        ∨ rectangle_position.2 > screen_size.2) := by
  unfold is_outside_screen
  simp [Bool.or_eq_true, decide_eq_true_iff, or_assoc]

/-! ### Renderer buffer lemmas -/

theorem wrap32_eq_self {z : Int} (hlo : -2 ^ 31 ≤ z) (hhi : z < 2 ^ 31) :
    wrap32 z = z := by
  unfold wrap32
  have h31 : (2 : Int) ^ 31 = 2147483648 := by norm_num
  have h32 : (2 : Int) ^ 32 = 4294967296 := by norm_num
  rw [h31] at hlo hhi
  rw [h31, h32]
  omega

theorem writeVertex_index {rd : RendererData V} (v : V)
    (hlo : 0 ≤ rd.quads_buffer_index) (hhi : rd.quads_buffer_index + 1 < 2 ^ 31) :
    (writeVertex rd v).quads_buffer_index = rd.quads_buffer_index + 1 := by
  show wrap32 (rd.quads_buffer_index + 1) = _
  exact wrap32_eq_self (by omega) hhi

theorem writeVertex_buffer (rd : RendererData V) (v : V) :
    (writeVertex rd v).quads_buffer
      = rd.quads_buffer.set rd.quads_buffer_index.toNat v := rfl

theorem writeQuad_eq (rd : RendererData V) (v : V) :
    writeQuad rd v
      = writeVertex (writeVertex (writeVertex (writeVertex rd v) v) v) v := rfl

theorem writeQuad_count (rd : RendererData V) (v : V) :
    (writeQuad rd v).index_count = rd.index_count := rfl

theorem writeQuad_spec {rd : RendererData V} (v : V)
    (hlo : 0 ≤ rd.quads_buffer_index) (hhi : rd.quads_buffer_index + 4 < 2 ^ 31) :
    (writeQuad rd v).quads_buffer_index = rd.quads_buffer_index + 4
    ∧ (writeQuad rd v).quads_buffer =
      (((rd.quads_buffer.set rd.quads_buffer_index.toNat v).set
          (rd.quads_buffer_index.toNat + 1) v).set
        (rd.quads_buffer_index.toNat + 2) v).set
          (rd.quads_buffer_index.toNat + 3) v := by
  have h1 : (writeVertex rd v).quads_buffer_index = rd.quads_buffer_index + 1 :=
    writeVertex_index v hlo (by omega)
  have h2 : (writeVertex (writeVertex rd v) v).quads_buffer_index
      = (writeVertex rd v).quads_buffer_index + 1 :=
    writeVertex_index v (by omega) (by omega)
  have h3 : (writeVertex (writeVertex (writeVertex rd v) v) v).quads_buffer_index
      = (writeVertex (writeVertex rd v) v).quads_buffer_index + 1 :=
    writeVertex_index v (by omega) (by omega)
  have h4 : (writeVertex (writeVertex (writeVertex (writeVertex rd v) v) v)
        v).quads_buffer_index
      = (writeVertex (writeVertex (writeVertex rd v) v) v).quads_buffer_index + 1 :=
    writeVertex_index v (by omega) (by omega)
  constructor
  · rw [writeQuad_eq]
    omega
  · rw [writeQuad_eq, writeVertex_buffer, writeVertex_buffer, writeVertex_buffer,
      writeVertex_buffer]
    have n1 : (writeVertex rd v).quads_buffer_index.toNat
        = rd.quads_buffer_index.toNat + 1 := by omega
    have n2 : (writeVertex (writeVertex rd v) v).quads_buffer_index.toNat
        = rd.quads_buffer_index.toNat + 2 := by omega
    have n3 : (writeVertex (writeVertex (writeVertex rd v) v) v).quads_buffer_index.toNat
        = rd.quads_buffer_index.toNat + 3 := by omega
    rw [n1, n2, n3]

theorem writeQuad_buffer_length (rd : RendererData V) (v : V) :
    (writeQuad rd v).quads_buffer.length = rd.quads_buffer.length := by
  rw [writeQuad_eq]
  simp [writeVertex, List.length_set]

theorem writeQuad_getElem_lt {rd : RendererData V} (v : V) {q : Nat}
    (hlo : 0 ≤ rd.quads_buffer_index) (hhi : rd.quads_buffer_index + 4 < 2 ^ 31)
    (hq : q < rd.quads_buffer_index.toNat) :
    (writeQuad rd v).quads_buffer[q]? = rd.quads_buffer[q]? := by
  rw [(writeQuad_spec v hlo hhi).2]
  rw [List.getElem?_set_ne (by omega), List.getElem?_set_ne (by omega),
    List.getElem?_set_ne (by omega), List.getElem?_set_ne (by omega)]

theorem writeQuad_getElem_hit {rd : RendererData V} (v : V) {j : Nat} (hj : j < 4)
    (hlo : 0 ≤ rd.quads_buffer_index) (hhi : rd.quads_buffer_index + 4 < 2 ^ 31)
    (hlen : rd.quads_buffer_index.toNat + 4 ≤ rd.quads_buffer.length) :
    (writeQuad rd v).quads_buffer[rd.quads_buffer_index.toNat + j]? = some v := by
  rw [(writeQuad_spec v hlo hhi).2]
  rcases (by omega : j = 0 ∨ j = 1 ∨ j = 2 ∨ j = 3) with rfl | rfl | rfl | rfl
  · rw [List.getElem?_set_ne (by omega), List.getElem?_set_ne (by omega),
      List.getElem?_set_ne (by omega)]
    rw [show rd.quads_buffer_index.toNat + 0 = rd.quads_buffer_index.toNat from rfl]
    rw [List.getElem?_set_self (by omega)]
  · rw [List.getElem?_set_ne (by omega), List.getElem?_set_ne (by omega)]
    rw [List.getElem?_set_self (by simp [List.length_set]; omega)]
  · rw [List.getElem?_set_ne (by omega)]
    rw [List.getElem?_set_self (by simp [List.length_set]; omega)]
  · rw [List.getElem?_set_self (by simp [List.length_set]; omega)]

/-- The `index_count += 6` step that follows each quad write. -/
def bumpCount (rd : RendererData V) : RendererData V :=
  { rd with index_count := wrap32 (rd.index_count + 6) }

theorem bumpCount_index (rd : RendererData V) :
    (bumpCount rd).quads_buffer_index = rd.quads_buffer_index := rfl

theorem bumpCount_count (rd : RendererData V) :
    (bumpCount rd).index_count = wrap32 (rd.index_count + 6) := rfl

theorem set_vertex_data_cons (v : V) (rest : List V) (rd : RendererData V) :
    set_vertex_data (v :: rest) rd =
      set_vertex_data rest (bumpCount (writeQuad rd v)) := rfl

theorem set_vertex_data_index (vs : List V) (rd : RendererData V)
    (hlo : 0 ≤ rd.quads_buffer_index)
    (hhi : rd.quads_buffer_index + 4 * (vs.length : Int) < 2 ^ 31) :
    (set_vertex_data vs rd).quads_buffer_index
      = rd.quads_buffer_index + 4 * (vs.length : Int) := by
  induction vs generalizing rd with
  | nil => simp [set_vertex_data]
  | cons v rest ih =>
    have hlc : ((v :: rest).length : Int) = (rest.length : Int) + 1 := by
      rw [List.length_cons]
      push_cast
      ring
    rw [hlc] at hhi
    have hrestpos : (0 : Int) ≤ (rest.length : Int) := Int.natCast_nonneg _
    have hq4 : (writeQuad rd v).quads_buffer_index = rd.quads_buffer_index + 4 :=
      (writeQuad_spec v hlo (by omega)).1
    have hlo2 : 0 ≤ (bumpCount (writeQuad rd v)).quads_buffer_index := by
      rw [bumpCount_index]
      omega
    have hhi2 : (bumpCount (writeQuad rd v)).quads_buffer_index
        + 4 * (rest.length : Int) < 2 ^ 31 := by
      rw [bumpCount_index]
      omega
    rw [set_vertex_data_cons, ih _ hlo2 hhi2, bumpCount_index, hq4, hlc]
    ring

theorem set_vertex_data_count (vs : List V) (rd : RendererData V)
    (hclo : -2 ^ 31 ≤ rd.index_count)
    (hchi : rd.index_count + 6 * (vs.length : Int) < 2 ^ 31) :
    (set_vertex_data vs rd).index_count
      = rd.index_count + 6 * (vs.length : Int) := by
  induction vs generalizing rd with
  | nil => simp [set_vertex_data]
  | cons v rest ih =>
    have hlc : ((v :: rest).length : Int) = (rest.length : Int) + 1 := by
      rw [List.length_cons]
      push_cast
      ring
    rw [hlc] at hchi
    have hrestpos : (0 : Int) ≤ (rest.length : Int) := Int.natCast_nonneg _
    have hcnt : (bumpCount (writeQuad rd v)).index_count = rd.index_count + 6 := by
      rw [bumpCount_count, writeQuad_count]
      exact wrap32_eq_self (by omega) (by omega)
    have hclo2 : -2 ^ 31 ≤ (bumpCount (writeQuad rd v)).index_count := by
      rw [hcnt]
      omega
    have hchi2 : (bumpCount (writeQuad rd v)).index_count
        + 6 * (rest.length : Int) < 2 ^ 31 := by
      rw [hcnt]
      omega
    rw [set_vertex_data_cons, ih _ hclo2 hchi2, hcnt, hlc]
    ring

theorem set_vertex_data_buffer_length (vs : List V) (rd : RendererData V) :
    (set_vertex_data vs rd).quads_buffer.length = rd.quads_buffer.length := by
  induction vs generalizing rd with
  | nil => rfl
  | cons v rest ih =>
    rw [set_vertex_data_cons, ih]
    exact writeQuad_buffer_length rd v

theorem set_vertex_data_other_fields (vs : List V) (rd : RendererData V) :
    (set_vertex_data vs rd).index_data = rd.index_data
    ∧ (set_vertex_data vs rd).texture_vbo = rd.texture_vbo
    ∧ (set_vertex_data vs rd).texture_vao = rd.texture_vao
    ∧ (set_vertex_data vs rd).texture_ibo = rd.texture_ibo
    ∧ (set_vertex_data vs rd).white_texture = rd.white_texture
    ∧ (set_vertex_data vs rd).white_texture_slot = rd.white_texture_slot
    ∧ (set_vertex_data vs rd).texture_slots = rd.texture_slots
    ∧ (set_vertex_data vs rd).texture_slot_index = rd.texture_slot_index := by
  induction vs generalizing rd with
  | nil => exact ⟨rfl, rfl, rfl, rfl, rfl, rfl, rfl, rfl⟩
  | cons v rest ih =>
    rw [set_vertex_data_cons]
    exact ih _

theorem set_vertex_data_getElem_lt (vs : List V) (rd : RendererData V) {q : Nat}
    (hlo : 0 ≤ rd.quads_buffer_index)
    (hhi : rd.quads_buffer_index + 4 * (vs.length : Int) < 2 ^ 31)
    (hq : q < rd.quads_buffer_index.toNat) :
    (set_vertex_data vs rd).quads_buffer[q]? = rd.quads_buffer[q]? := by
  induction vs generalizing rd with
  | nil => rfl
  | cons v rest ih =>
    have hlc : ((v :: rest).length : Int) = (rest.length : Int) + 1 := by
      rw [List.length_cons]
      push_cast
      ring
    rw [hlc] at hhi
    have hrestpos : (0 : Int) ≤ (rest.length : Int) := Int.natCast_nonneg _
    have hq4 : (writeQuad rd v).quads_buffer_index = rd.quads_buffer_index + 4 :=
      (writeQuad_spec v hlo (by omega)).1
    have hlo2 : 0 ≤ (bumpCount (writeQuad rd v)).quads_buffer_index := by
      rw [bumpCount_index]
      omega
    have hhi2 : (bumpCount (writeQuad rd v)).quads_buffer_index
        + 4 * (rest.length : Int) < 2 ^ 31 := by
      rw [bumpCount_index]
      omega
    have hq2 : q < (bumpCount (writeQuad rd v)).quads_buffer_index.toNat := by
      rw [bumpCount_index]
      omega
    rw [set_vertex_data_cons, ih _ hlo2 hhi2 hq2]
    exact writeQuad_getElem_lt v hlo (by omega) hq

theorem set_vertex_data_written (vs : List V) (rd : RendererData V)
    (hlo : 0 ≤ rd.quads_buffer_index)
    (hhi : rd.quads_buffer_index + 4 * (vs.length : Int) < 2 ^ 31)
    (hlen : rd.quads_buffer_index.toNat + 4 * vs.length ≤ rd.quads_buffer.length) :
    ∀ i j, i < vs.length → j < 4 →
      (set_vertex_data vs rd).quads_buffer[rd.quads_buffer_index.toNat + 4 * i + j]?
        = vs[i]? := by
  induction vs generalizing rd with
  | nil =>
    intro i j hi hj
    exact absurd hi (by simp)
  | cons v rest ih =>
    intro i j hi hj
    have hlc : ((v :: rest).length : Int) = (rest.length : Int) + 1 := by
      rw [List.length_cons]
      push_cast
      ring
    rw [hlc] at hhi
    have hlenc : (v :: rest).length = rest.length + 1 := rfl
    rw [hlenc] at hlen
    have hrestpos : (0 : Int) ≤ (rest.length : Int) := Int.natCast_nonneg _
    have hq4 : (writeQuad rd v).quads_buffer_index = rd.quads_buffer_index + 4 :=
      (writeQuad_spec v hlo (by omega)).1
    have hbl : (writeQuad rd v).quads_buffer.length = rd.quads_buffer.length :=
      writeQuad_buffer_length rd v
    have hlo2 : 0 ≤ (bumpCount (writeQuad rd v)).quads_buffer_index := by
      rw [bumpCount_index]
      omega
    have hhi2 : (bumpCount (writeQuad rd v)).quads_buffer_index
        + 4 * (rest.length : Int) < 2 ^ 31 := by
      rw [bumpCount_index]
      omega
    rw [set_vertex_data_cons]
    match i with
    | 0 =>
      have h2 : rd.quads_buffer_index.toNat + 4 * 0 + j
          = rd.quads_buffer_index.toNat + j := by omega
      rw [h2]
      have hq2 : rd.quads_buffer_index.toNat + j
          < (bumpCount (writeQuad rd v)).quads_buffer_index.toNat := by
        rw [bumpCount_index]
        omega
      rw [set_vertex_data_getElem_lt rest _ hlo2 hhi2 hq2]
      show (writeQuad rd v).quads_buffer[rd.quads_buffer_index.toNat + j]? = _
      rw [writeQuad_getElem_hit v hj hlo (by omega) (by omega)]
      simp
    | i2 + 1 =>
      have hlen2 : (bumpCount (writeQuad rd v)).quads_buffer_index.toNat
          + 4 * rest.length
          ≤ (bumpCount (writeQuad rd v)).quads_buffer.length := by
        rw [bumpCount_index]
        show (writeQuad rd v).quads_buffer_index.toNat + 4 * rest.length
          ≤ (writeQuad rd v).quads_buffer.length
        rw [hbl]
        omega
      have h3 := ih _ hlo2 hhi2 hlen2 i2 j (by simpa using hi) hj
      have h4 : (bumpCount (writeQuad rd v)).quads_buffer_index.toNat + 4 * i2 + j
          = rd.quads_buffer_index.toNat + 4 * (i2 + 1) + j := by
        have h5 : (bumpCount (writeQuad rd v)).quads_buffer_index
            = rd.quads_buffer_index + 4 := by
          rw [bumpCount_index]
          exact hq4
        omega
      rw [h4] at h3
      rw [h3]
      simp

/-- C10 (amended): with `n` raw vertices, provided the 32-bit counters do not
overflow during the call — the starting `quads_buffer_index` is non-negative
with `quads_buffer_index + 4·n < 2³¹`, and `index_count` stays within the
`int` range with `index_count + 6·n < 2³¹` — and the quads buffer has at
least `quads_buffer_index + 4·n` slots: each raw vertex is written into 4
consecutive buffer slots, `quads_buffer_index` increases by exactly `4·n`,
`index_count` increases by exactly `6·n`, and every other field of the
`RendererData` is unchanged. -/
theorem set_vertex_data_spec {V : Type} (vs : List V) (rd : RendererData V)
    (hlo : 0 ≤ rd.quads_buffer_index)
    (hhi : rd.quads_buffer_index + 4 * (vs.length : Int) < 2 ^ 31)
    (hclo : -2 ^ 31 ≤ rd.index_count)
    (hchi : rd.index_count + 6 * (vs.length : Int) < 2 ^ 31)
    (hlen : rd.quads_buffer_index.toNat + 4 * vs.length ≤ rd.quads_buffer.length) :
    (set_vertex_data vs rd).quads_buffer_index
        = rd.quads_buffer_index + 4 * (vs.length : Int)
    ∧ (set_vertex_data vs rd).index_count = rd.index_count + 6 * (vs.length : Int)
    ∧ (∀ i j, i < vs.length → j < 4 →
        (set_vertex_data vs rd).quads_buffer[rd.quads_buffer_index.toNat + 4 * i + j]?
          = vs[i]?)
    ∧ (set_vertex_data vs rd).quads_buffer.length = rd.quads_buffer.length
    ∧ (set_vertex_data vs rd).index_data = rd.index_data
    ∧ (set_vertex_data vs rd).texture_vbo = rd.texture_vbo
    ∧ (set_vertex_data vs rd).texture_vao = rd.texture_vao
    ∧ (set_vertex_data vs rd).texture_ibo = rd.texture_ibo
    ∧ (set_vertex_data vs rd).white_texture = rd.white_texture
    ∧ (set_vertex_data vs rd).white_texture_slot = rd.white_texture_slot
    ∧ (set_vertex_data vs rd).texture_slots = rd.texture_slots
    ∧ (set_vertex_data vs rd).texture_slot_index = rd.texture_slot_index := by
  obtain ⟨h1, h2, h3, h4, h5, h6, h7, h8⟩ := set_vertex_data_other_fields vs rd
  exact ⟨set_vertex_data_index vs rd hlo hhi, set_vertex_data_count vs rd hclo hchi,
    set_vertex_data_written vs rd hlo hhi hlen, set_vertex_data_buffer_length vs rd,
    h1, h2, h3, h4, h5, h6, h7, h8⟩

/-- A renderer state whose `index_count` sits at the maximum of the 32-bit
`cdef public int` range, with room in the quads buffer for one vertex. -/
def c10OverflowRd : RendererData Nat :=
  RendererData.mk [] (2 ^ 31 - 1) 0 0 0 [0, 0, 0, 0] 0 0 0 [] 1

/-- C10 counterexample: at `index_count = 2³¹ − 1` — a value the source's
32-bit `cdef public int` field can hold — one `set_vertex_data` call with one
raw vertex wraps the counter, so `index_count` does not increase by exactly
`6·n` even though the quads buffer has the required `quads_buffer_index + 4·n`
slots. -/
theorem set_vertex_data_overflow_counterexample :
    (c10OverflowRd.quads_buffer_index.toNat + 4 * [(7 : Nat)].length
        ≤ c10OverflowRd.quads_buffer.length)
    ∧ (set_vertex_data [(7 : Nat)] c10OverflowRd).index_count
        ≠ c10OverflowRd.index_count + 6 * (([(7 : Nat)].length : Int)) := by
  refine ⟨by decide, ?_⟩
  decide

/-- A renderer state with zeroed counters and an 8-slot quads buffer, used to
exercise `set_vertex_data_spec` concretely. -/
def c10Rd : RendererData Nat :=
  RendererData.mk [] 0 0 0 0 [0, 0, 0, 0, 0, 0, 0, 0] 0 0 0 [] 1

theorem set_vertex_data_spec_witness :
    (0 ≤ c10Rd.quads_buffer_index)
    ∧ (c10Rd.quads_buffer_index + 4 * (([7, 9] : List Nat).length : Int) < 2 ^ 31)
    ∧ (-2 ^ 31 ≤ c10Rd.index_count)
    ∧ (c10Rd.index_count + 6 * (([7, 9] : List Nat).length : Int) < 2 ^ 31)
    ∧ (c10Rd.quads_buffer_index.toNat + 4 * ([7, 9] : List Nat).length
        ≤ c10Rd.quads_buffer.length)
    ∧ ((set_vertex_data [7, 9] c10Rd).quads_buffer_index
        = c10Rd.quads_buffer_index + 4 * (([7, 9] : List Nat).length : Int)) :=
  ⟨by decide, by decide, by decide, by decide, by decide,
    (set_vertex_data_spec [7, 9] c10Rd (by decide) (by decide) (by decide)
      (by decide) (by decide)).1⟩

/-- C6: for an alive entity not yet holding component type `t`: inserting
value `v` then reading it back yields `v`; inserting again fails with
`DuplicateComponent`; removing returns the removed value `v`; and a subsequent
read fails with `ComponentNotFound`. -/
theorem component_round_trip {α : Type} {w : World α} {id : EntityId} {t : Nat}
    (p : Pool α) (v : α)
    (hw : w.Inv) (halive : w.alloc.isAlive id = true)
    (hp : w.pools[t]? = some p) (hnot : id.index ∉ p.rev) :
    ∃ w', w.addComponent id t v = .ok w'
      ∧ w'.getComponent id t = .ok v
      ∧ (∀ v2, w'.addComponent id t v2 = .error .DuplicateComponent)
      ∧ ∃ w'', w'.removeComponent id t = .ok (v, w'')
        ∧ w''.getComponent id t = .error .ComponentNotFound := by
  have htlt : t < w.pools.length := listGet_lt hp
  have hpinv : p.Inv := hw.1 t p hp
  refine ⟨World.mk w.alloc
      (w.pools.set t ⟨p.dense ++ [v], p.rev ++ [id.index]⟩)
      (fun x => if x = id.index then sigSetBit (w.sigs x) t else w.sigs x)
      w.pending, ?_, ?_, ?_, ?_⟩
  · simp only [World.addComponent, halive, if_true, hp, Pool.insert_not_mem hnot]
  · simp only [World.getComponent, halive, if_true, List.getElem?_set_self htlt]
    exact Pool.get_insert_self hpinv hnot
  · intro v2
    have hmem : id.index ∈ (Pool.mk (p.dense ++ [v]) (p.rev ++ [id.index])).rev := by
      simp
    simp only [World.addComponent, halive, if_true, List.getElem?_set_self htlt,
      Pool.insert_mem hmem]
  · refine ⟨World.mk w.alloc ((w.pools.set t ⟨p.dense ++ [v], p.rev ++ [id.index]⟩).set t p)
      (fun x => if x = id.index then
          sigClearBit ((fun y => if y = id.index then sigSetBit (w.sigs y) t else w.sigs y) x) t
        else (fun y => if y = id.index then sigSetBit (w.sigs y) t else w.sigs y) x)
      w.pending, ?_, ?_⟩
    · simp only [World.removeComponent, halive, if_true, List.getElem?_set_self htlt,
        Pool.remove_insert_self hpinv hnot]
    · have htlt2 : t < ((w.pools.set t
          (Pool.mk (p.dense ++ [v]) (p.rev ++ [id.index])))).length := by
        simpa using htlt
      simp only [World.getComponent, halive, if_true, List.getElem?_set_self htlt2]
      exact Pool.get_not_mem hnot

theorem component_round_trip_witness :
    (((initWorld Nat 1).run [WOp.create]).alloc.isAlive ⟨0, 0⟩ = true)
    ∧ (((initWorld Nat 1).run [WOp.create]).pools[0]? = some (Pool.emptyPool : Pool Nat))
    ∧ ((0 : Nat) ∉ (Pool.emptyPool : Pool Nat).rev)
    ∧ (∃ w', ((initWorld Nat 1).run [WOp.create]).addComponent ⟨0, 0⟩ 0 42 = .ok w'
        ∧ w'.getComponent ⟨0, 0⟩ 0 = .ok 42
        ∧ (∀ v2, w'.addComponent ⟨0, 0⟩ 0 v2 = .error .DuplicateComponent)
        ∧ ∃ w'', w'.removeComponent ⟨0, 0⟩ 0 = .ok (42, w'')
          ∧ w''.getComponent ⟨0, 0⟩ 0 = .error .ComponentNotFound) :=
  ⟨by decide, by decide, by decide,
    component_round_trip Pool.emptyPool 42
      (World.inv_run (inv_initWorld Nat 1) [WOp.create])
      (by decide) (by decide) (by decide)⟩

/-- C5: destroying an alive entity that holds components of types `tX` and
`tY` succeeds, removes it from pool `tX`, pool `tY` and every other pool,
clears its signature to empty, and every subsequent `get_component` call on it
fails with `InvalidEntity`. -/
theorem destroy_cascade {α : Type} {w : World α} {id : EntityId} (tX tY : Nat)
    (hw : w.Inv) (halive : w.alloc.isAlive id = true)
    (_hX : ((w.sigs id.index).testBit tX) = true)
    (_hY : ((w.sigs id.index).testBit tY) = true) :
    ∃ w', w.destroyEntity id = .ok w'
      ∧ (¬ w'.poolHas tX id.index) ∧ (¬ w'.poolHas tY id.index)
      ∧ (∀ t, ¬ w'.poolHas t id.index)
      ∧ w'.sigs id.index = 0
      ∧ (∀ t, w'.getComponent id t = .error .InvalidEntity) := by
  have hdesA : w.alloc.destroy id = .ok { w.alloc with
      alive := w.alloc.alive.set id.index false,
      free := id.index :: w.alloc.free } := by
    simp only [Allocator.destroy, halive, if_true]
  cases hd : w.destroyEntity id with
  | error err =>
    exfalso
    unfold World.destroyEntity at hd
    rw [hdesA] at hd
    exact Except.noConfusion hd
  | ok w' =>
    unfold World.destroyEntity at hd
    split at hd
    next err hdes => exact Except.noConfusion hd
    next a' hdes =>
      cases hd
      have hP1 : World.PoolsInv { w with alloc := a' } := hw.1
      have hS1 : World.SigSync { w with alloc := a' } := hw.2.1
      obtain ⟨hP2, hS2⟩ := World.inv_onEntityDestroyed id.index hP1 hS1
      have hsig : (World.onEntityDestroyed { w with alloc := a' } id.index).sigs
          id.index = 0 := by
        simp [World.onEntityDestroyed]
      have hnone : ∀ t, ¬ (World.onEntityDestroyed { w with alloc := a' }
          id.index).poolHas t id.index := by
        intro t hcon
        have hb := (hS2 id.index t).mp hcon
        rw [hsig, sig_zero_testBit] at hb
        exact Bool.noConfusion hb
      have hdead : (World.onEntityDestroyed { w with alloc := a' }
          id.index).alloc.isAlive id = false := by
        show a'.isAlive id = false
        exact Allocator.isAlive_after_destroy hdes
      refine ⟨_, rfl, hnone tX, hnone tY, hnone, hsig, ?_⟩
      intro t
      simp [World.getComponent, hdead]

theorem destroy_cascade_witness :
    (((initWorld Nat 2).run
        [WOp.create, WOp.add ⟨0, 0⟩ 0 1, WOp.add ⟨0, 0⟩ 1 2]).alloc.isAlive ⟨0, 0⟩
      = true)
    ∧ ((((initWorld Nat 2).run
        [WOp.create, WOp.add ⟨0, 0⟩ 0 1, WOp.add ⟨0, 0⟩ 1 2]).sigs 0).testBit 0 = true)
    ∧ ((((initWorld Nat 2).run
        [WOp.create, WOp.add ⟨0, 0⟩ 0 1, WOp.add ⟨0, 0⟩ 1 2]).sigs 0).testBit 1 = true)
    ∧ (∃ w', ((initWorld Nat 2).run
          [WOp.create, WOp.add ⟨0, 0⟩ 0 1, WOp.add ⟨0, 0⟩ 1 2]).destroyEntity ⟨0, 0⟩
            = .ok w'
        ∧ (¬ w'.poolHas 0 0) ∧ (¬ w'.poolHas 1 0)
        ∧ (∀ t, ¬ w'.poolHas t 0)
        ∧ w'.sigs 0 = 0
        ∧ (∀ t, w'.getComponent ⟨0, 0⟩ t = .error .InvalidEntity)) :=
  ⟨by decide, by decide, by decide,
    destroy_cascade 0 1
      (World.inv_run (inv_initWorld Nat 2)
        [WOp.create, WOp.add ⟨0, 0⟩ 0 1, WOp.add ⟨0, 0⟩ 1 2])
      (by decide) (by decide) (by decide)⟩

/-- C3: after every finite sequence of world operations from a fresh world,
each Component Pool's dense array contains exactly the entities whose
signature bit for that pool's type is set — no entity in a pool without its
bit, no bit set without a pool entry — and the dense array stays aligned with
the reverse index and duplicate-free. -/
theorem pool_density (α : Type) (n : Nat) (ops : List (WOp α)) :
    (∀ (t : Nat) (p : Pool α), ((initWorld α n).run ops).pools[t]? = some p →
        p.dense.length = p.rev.length ∧ p.rev.Nodup ∧
        (∀ e, e ∈ p.rev ↔ (((initWorld α n).run ops).sigs e).testBit t))
    ∧ (∀ e t, (((initWorld α n).run ops).sigs e).testBit t →
        ∃ p, ((initWorld α n).run ops).pools[t]? = some p ∧ e ∈ p.rev) := by
  have hw := World.inv_run (inv_initWorld α n) ops
  obtain ⟨hP, hS, -, -⟩ := hw
  constructor
  · intro t p hp
    refine ⟨(hP t p hp).1, (hP t p hp).2, ?_⟩
    intro e
    constructor
    · intro he
      exact (hS e t).mp ⟨p, hp, he⟩
    · intro hb
      obtain ⟨q, hq, he⟩ := (hS e t).mpr hb
      rw [hp] at hq
      cases hq
      exact he
  · intro e t hb
    exact (hS e t).mpr hb

/-! ### System Pipeline lemmas -/

theorem runStage_cons_ok (st : Stage) (w w2 : World α) (ent : SysEntry α)
    (rest : List (SysEntry α)) (hst : ent.stage = st)
    (hb : ent.body (w.queryMatch ent.query) w = .ok w2) :
    runStage st w (ent :: rest) =
      ⟨(runStage st w2 rest).world, (runStage st w2 rest).failures,
       ⟨ent.sysId, ent.query, w, w.queryMatch ent.query⟩
         :: (runStage st w2 rest).trace⟩ := by
  simp only [runStage, if_pos hst, hb]

theorem runStage_cons_err (st : Stage) (w : World α) (ent : SysEntry α)
    (rest : List (SysEntry α)) (err : EcsError) (hst : ent.stage = st)
    (hb : ent.body (w.queryMatch ent.query) w = .error err) :
    runStage st w (ent :: rest) =
      ⟨(runStage st w rest).world,
       (ent.sysId, err) :: (runStage st w rest).failures,
       ⟨ent.sysId, ent.query, w, w.queryMatch ent.query⟩
         :: (runStage st w rest).trace⟩ := by
  simp only [runStage, if_pos hst, hb]

theorem runStage_cons_skip (st : Stage) (w : World α) (ent : SysEntry α)
    (rest : List (SysEntry α)) (hst : ¬ ent.stage = st) :
    runStage st w (ent :: rest) = runStage st w rest := by
  simp only [runStage, if_neg hst]

theorem runStage_trace_ids (st : Stage) (entries : List (SysEntry α)) :
    ∀ w : World α,
    (runStage st w entries).trace.map TraceEntry.sysId
      = (entries.filter (fun s => s.stage == st)).map SysEntry.sysId := by
  induction entries with
  | nil => intro w; rfl
  | cons ent rest ih =>
    intro w
    by_cases hst : ent.stage = st
    · have hfil : (ent :: rest).filter (fun s => s.stage == st)
          = ent :: rest.filter (fun s => s.stage == st) := by
        simp [List.filter_cons, hst]
      cases hb : ent.body (w.queryMatch ent.query) w with
      | ok w2 =>
        rw [runStage_cons_ok st w w2 ent rest hst hb, hfil]
        simp [ih w2]
      | error e =>
        rw [runStage_cons_err st w ent rest e hst hb, hfil]
        simp [ih w]
    · rw [runStage_cons_skip st w ent rest hst]
      have hfil : (ent :: rest).filter (fun s => s.stage == st)
          = rest.filter (fun s => s.stage == st) := by
        simp [List.filter_cons, hst]
      rw [hfil, ih w]

theorem runStage_trace_fresh (st : Stage) (entries : List (SysEntry α)) :
    ∀ (w : World α), ∀ tr ∈ (runStage st w entries).trace,
      tr.passed = tr.worldAt.queryMatch tr.query := by
  induction entries with
  | nil =>
    intro w tr htr
    exact absurd htr (by simp [runStage])
  | cons ent rest ih =>
    intro w tr htr
    by_cases hst : ent.stage = st
    · cases hb : ent.body (w.queryMatch ent.query) w with
      | ok w2 =>
        rw [runStage_cons_ok st w w2 ent rest hst hb] at htr
        rcases List.mem_cons.mp htr with hc | hc
        · subst hc; rfl
        · exact ih w2 tr hc
      | error e =>
        rw [runStage_cons_err st w ent rest e hst hb] at htr
        rcases List.mem_cons.mp htr with hc | hc
        · subst hc; rfl
        · exact ih w tr hc
    · rw [runStage_cons_skip st w ent rest hst] at htr
      exact ih w tr htr

theorem runStage_failure_surfaced (st : Stage) (entries : List (SysEntry α))
    (ent : SysEntry α) (err : EcsError) (hst : ent.stage = st)
    (hfail : ∀ ents w2, ent.body ents w2 = .error err) :
    ∀ w : World α, ent ∈ entries →
      (ent.sysId, err) ∈ (runStage st w entries).failures := by
  induction entries with
  | nil =>
    intro w hmem
    exact absurd hmem (by simp)
  | cons e2 rest ih =>
    intro w hmem
    rcases List.mem_cons.mp hmem with hc | hc
    · subst hc
      rw [runStage_cons_err st w ent rest err hst (hfail _ _)]
      exact List.mem_cons_self _ _
    · by_cases hst2 : e2.stage = st
      · cases hb : e2.body (w.queryMatch e2.query) w with
        | ok w2 =>
          rw [runStage_cons_ok st w w2 e2 rest hst2 hb]
          exact ih w2 hc
        | error e3 =>
          rw [runStage_cons_err st w e2 rest e3 hst2 hb]
          exact List.mem_cons_of_mem _ (ih w hc)
      · rw [runStage_cons_skip st w e2 rest hst2]
        exact ih w hc

/-- C7: `run_stage` invokes exactly the callables registered for the stage,
each exactly once, in registration order, regardless of failures; every
invocation receives its query re-evaluated fresh against the world state at
that invocation; and a callable that always fails has its error surfaced in
the returned failure list while the remaining systems still run. -/
theorem run_stage_spec {α : Type} (st : Stage) (w : World α)
    (entries : List (SysEntry α)) (ent : SysEntry α) (err : EcsError)
    (hmem : ent ∈ entries) (hst : ent.stage = st)
    (hfail : ∀ ents w2, ent.body ents w2 = .error err) :
    ((runStage st w entries).trace.map TraceEntry.sysId
        = (entries.filter (fun s => s.stage == st)).map SysEntry.sysId)
    ∧ (∀ tr ∈ (runStage st w entries).trace,
        tr.passed = tr.worldAt.queryMatch tr.query)
    ∧ ((ent.sysId, err) ∈ (runStage st w entries).failures) :=
  ⟨runStage_trace_ids st entries w,
   runStage_trace_fresh st entries w,
   runStage_failure_surfaced st entries ent err hst hfail w hmem⟩

def c7OkSys (i : Nat) (st : Stage) : SysEntry Nat :=
  ⟨st, i, ⟨0, 0⟩, fun _ w2 => .ok w2⟩

def c7FailSys : SysEntry Nat :=
  ⟨Stage.UPDATE, 1, ⟨0, 0⟩, fun _ _ => .error .InvalidEntity⟩

def c7Entries : List (SysEntry Nat) :=
  [c7OkSys 0 Stage.UPDATE, c7FailSys, c7OkSys 2 Stage.RENDER,
   c7OkSys 3 Stage.UPDATE]

theorem run_stage_spec_witness :
    (c7FailSys ∈ c7Entries)
    ∧ (c7FailSys.stage = Stage.UPDATE)
    ∧ (((runStage Stage.UPDATE (initWorld Nat 0) c7Entries).trace.map
          TraceEntry.sysId
        = (c7Entries.filter (fun s => s.stage == Stage.UPDATE)).map
            SysEntry.sysId)
      ∧ (∀ tr ∈ (runStage Stage.UPDATE (initWorld Nat 0) c7Entries).trace,
          tr.passed = tr.worldAt.queryMatch tr.query)
      ∧ ((c7FailSys.sysId, EcsError.InvalidEntity)
          ∈ (runStage Stage.UPDATE (initWorld Nat 0) c7Entries).failures)) :=
  ⟨List.mem_cons_of_mem _ (List.mem_cons_self _ _), rfl,
    run_stage_spec Stage.UPDATE (initWorld Nat 0) c7Entries c7FailSys
      EcsError.InvalidEntity
      (List.mem_cons_of_mem _ (List.mem_cons_self _ _)) rfl (fun _ _ => rfl)⟩

/-! ### Builder commit lemmas -/

namespace Allocator

/-- The slot of the identity that `create` returns was dead beforehand. -/
theorem create_aliveAt_before {a : Allocator} (ha : a.Inv) :
    a.aliveAt (a.create).1.index = false := by
  obtain ⟨hlen, hnd, hvf⟩ := ha
  unfold create
  cases hf : a.free with
  | nil =>
    show a.aliveAt a.alive.length = false
    unfold aliveAt
    rw [List.getElem?_eq_none (by omega)]
    rfl
  | cons j rest =>
    show a.aliveAt j = false
    unfold aliveAt
    obtain ⟨hjlt, hjdead⟩ := hvf j (by rw [hf]; exact List.mem_cons_self j rest)
    rw [hjdead]
    rfl

end Allocator

/-- The combined signature mask of a staged component list (spec §4.5: the
builder commits every staged component and the resulting signature in one
logical step). -/
def sigMask {α : Type} (staged : List (Nat × α)) : Nat :=
  staged.foldl (fun s tv => sigSetBit s tv.1) 0

namespace World

theorem addRaw_pools_length (w : World α) (e t : Nat) (v : α) :
    (w.addRaw e t v).pools.length = w.pools.length := by
  unfold addRaw
  split
  next => rfl
  next p hp =>
    split
    next err hins => rfl
    next p' hins => simp [List.length_set]

theorem addRaw_pools_other (w : World α) (e t : Nat) (v : α) {u : Nat}
    (hu : t ≠ u) : (w.addRaw e t v).pools[u]? = w.pools[u]? := by
  unfold addRaw
  split
  next => rfl
  next p hp =>
    split
    next err hins => rfl
    next p' hins =>
      show (w.pools.set t p')[u]? = _
      rw [List.getElem?_set_ne hu]

theorem addRaw_sigs_other (w : World α) (e t : Nat) (v : α) {x : Nat}
    (hx : x ≠ e) : (w.addRaw e t v).sigs x = w.sigs x := by
  unfold addRaw
  split
  next => rfl
  next p hp =>
    split
    next err hins => rfl
    next p' hins =>
      show (if x = e then _ else w.sigs x) = w.sigs x
      rw [if_neg hx]

theorem addRaw_sigs_self (w : World α) (e t : Nat) (v : α) {p : Pool α}
    (hp : w.pools[t]? = some p) (hnot : e ∉ p.rev) :
    (w.addRaw e t v).sigs e = sigSetBit (w.sigs e) t := by
  unfold addRaw
  split
  next hnone => rw [hnone] at hp; exact Option.noConfusion hp
  next p2 hp2 =>
    rw [hp] at hp2
    injection hp2 with hpe
    subst hpe
    split
    next err hins =>
      rw [Pool.insert_not_mem hnot] at hins
      exact Except.noConfusion hins
    next p' hins =>
      show (if e = e then sigSetBit (w.sigs e) t else _) = _
      rw [if_pos rfl]

theorem addRaw_pools_self (w : World α) (e t : Nat) (v : α) {p : Pool α}
    (hp : w.pools[t]? = some p) (hnot : e ∉ p.rev) :
    (w.addRaw e t v).pools[t]? = some ⟨p.dense ++ [v], p.rev ++ [e]⟩ := by
  have htlt : t < w.pools.length := listGet_lt hp
  unfold addRaw
  split
  next hnone => rw [hnone] at hp; exact Option.noConfusion hp
  next p2 hp2 =>
    rw [hp] at hp2
    injection hp2 with hpe
    subst hpe
    split
    next err hins =>
      rw [Pool.insert_not_mem hnot] at hins
      exact Except.noConfusion hins
    next p' hins =>
      rw [Pool.insert_not_mem hnot] at hins
      injection hins with hpe2
      subst hpe2
      show (w.pools.set t _)[t]? = _
      rw [List.getElem?_set_self htlt]

theorem commitStaged_pools_not_mem (w : World α) (e : Nat)
    (staged : List (Nat × α)) {t : Nat}
    (hnotin : t ∉ staged.map Prod.fst) :
    (w.commitStaged e staged).pools[t]? = w.pools[t]? := by
  induction staged generalizing w with
  | nil => rfl
  | cons tv rest ih =>
    obtain ⟨t2, v2⟩ := tv
    rw [commitStaged_cons]
    have ht2 : t2 ≠ t := by
      intro hc; subst hc
      apply hnotin
      rw [List.map_cons]
      exact List.mem_cons_self _ _
    have hnotin2 : t ∉ rest.map Prod.fst := by
      intro hc
      apply hnotin
      rw [List.map_cons]
      exact List.mem_cons_of_mem _ hc
    rw [ih _ hnotin2]
    exact addRaw_pools_other w e t2 v2 ht2

theorem commitStaged_spec {w : World α} {e : Nat} (staged : List (Nat × α))
    (hw : w.Inv) (halive : w.alloc.aliveAt e = true)
    (hnd : (staged.map Prod.fst).Nodup)
    (htlt : ∀ tv ∈ staged, tv.1 < w.pools.length)
    (hfresh : ∀ tv ∈ staged, ((w.sigs e).testBit tv.1) = false) :
    (∀ tv ∈ staged, ∃ p, (w.commitStaged e staged).pools[tv.1]? = some p
        ∧ p.get e = .ok tv.2)
    ∧ (w.commitStaged e staged).sigs e
        = staged.foldl (fun s tv => sigSetBit s tv.1) (w.sigs e)
    ∧ (∀ x, x ≠ e → (w.commitStaged e staged).sigs x = w.sigs x) := by
  induction staged generalizing w with
  | nil =>
    refine ⟨?_, rfl, ?_⟩
    · intro tv htv
      exact absurd htv (by simp)
    · intro x hx
      rfl
  | cons tv rest ih =>
    obtain ⟨t, v⟩ := tv
    have htlen : t < w.pools.length := htlt (t, v) (by simp)
    have hp : w.pools[t]? = some w.pools[t] := List.getElem?_eq_getElem htlen
    have hfw : ((w.sigs e).testBit t) = false := hfresh (t, v) (by simp)
    have hnotrev : e ∉ (w.pools[t]).rev := by
      intro hc
      have hbit := (hw.2.1 e t).mp ⟨w.pools[t], hp, hc⟩
      rw [hfw] at hbit
      exact Bool.noConfusion hbit
    have hw2 : (w.addRaw e t v).Inv := inv_addRaw hw halive
    have halive2 : (w.addRaw e t v).alloc.aliveAt e = true := by
      rw [addRaw_alloc]
      exact halive
    have hndparts : t ∉ rest.map Prod.fst ∧ (rest.map Prod.fst).Nodup := by
      have hmapcons : ((t, v) :: rest).map Prod.fst = t :: rest.map Prod.fst :=
        List.map_cons _ _ _
      exact List.nodup_cons.mp (hmapcons ▸ hnd)
    have htlt2 : ∀ tv2 ∈ rest, tv2.1 < (w.addRaw e t v).pools.length := by
      intro tv2 htv2
      rw [addRaw_pools_length]
      exact htlt tv2 (by simp [htv2])
    have hsigs2 : (w.addRaw e t v).sigs e = sigSetBit (w.sigs e) t :=
      addRaw_sigs_self w e t v hp hnotrev
    have hfresh2 : ∀ tv2 ∈ rest, (((w.addRaw e t v).sigs e).testBit tv2.1) = false := by
      intro tv2 htv2
      rw [hsigs2, testBit_sigSetBit]
      have h1 : ((w.sigs e).testBit tv2.1) = false := hfresh tv2 (by simp [htv2])
      have h2 : t ≠ tv2.1 := by
        intro hc
        exact hndparts.1 (hc ▸ List.mem_map_of_mem Prod.fst htv2)
      simp [h1, h2]
    obtain ⟨ih1, ih2, ih3⟩ := ih hw2 halive2 hndparts.2 htlt2 hfresh2
    rw [commitStaged_cons]
    refine ⟨?_, ?_, ?_⟩
    · intro tv2 htv2
      rcases List.mem_cons.mp htv2 with hc | hc
      · cases hc
        refine ⟨⟨(w.pools[t]).dense ++ [v], (w.pools[t]).rev ++ [e]⟩, ?_, ?_⟩
        · rw [commitStaged_pools_not_mem _ e rest hndparts.1]
          exact addRaw_pools_self w e t v hp hnotrev
        · exact Pool.get_insert_self (hw.1 t _ hp) hnotrev
      · exact ih1 tv2 hc
    · rw [ih2, hsigs2]
      rfl
    · intro x hx
      rw [ih3 x hx]
      exact addRaw_sigs_other w e t v hx

end World

/-- C8: an entity constructed through the Entity Builder is observable by no
query before `build()` and, after `build()`, carries all staged components:
each staged value is readable, the committed signature is exactly the mask of
the staged types (never a proper subset), and a query sees the entity iff that
full mask satisfies it; staging the same type twice fails with
`DuplicateComponent`. -/
theorem builder_atomicity {α : Type} (w : World α) (staged : List (Nat × α))
    (hw : w.Inv) (hnd : (staged.map Prod.fst).Nodup)
    (htlt : ∀ tv ∈ staged, tv.1 < w.pools.length) :
    (∀ q : QuerySpec,
        (w.beginBuild).1.eid.index ∉ (w.beginBuild).2.queryMatch q)
    ∧ (∀ t v v2, (t, v) ∈ staged →
        (Builder.mk (w.beginBuild).1.eid staged).withComponent t v2
          = .error .DuplicateComponent)
    ∧ (∀ tv ∈ staged,
        ((w.beginBuild).2.build ⟨(w.beginBuild).1.eid, staged⟩).getComponent
          (w.beginBuild).1.eid tv.1 = .ok tv.2)
    ∧ ((w.beginBuild).2.build ⟨(w.beginBuild).1.eid, staged⟩).sigs
        (w.beginBuild).1.eid.index = sigMask staged
    ∧ (∀ q : QuerySpec,
        ((w.beginBuild).1.eid.index
            ∈ ((w.beginBuild).2.build ⟨(w.beginBuild).1.eid, staged⟩).queryMatch q)
          ↔ matchesSig (sigMask staged) q.withMask q.withoutMask = true) := by
  have hAinv := hw.2.2.2
  have hAliveFull : (w.alloc.create).2.isAlive (w.alloc.create).1 = true :=
    Allocator.create_alive hAinv
  have halive1 : (w.alloc.create).2.aliveAt (w.alloc.create).1.index = true :=
    Allocator.isAlive_aliveAt hAliveFull
  have hdead : w.alloc.aliveAt (w.alloc.create).1.index = false :=
    Allocator.create_aliveAt_before hAinv
  have hsig0 : w.sigs (w.alloc.create).1.index = 0 := hw.2.2.1 _ hdead
  have hw1 : ((w.beginBuild).2).Inv := World.inv_beginBuild hw
  have halive1' : ((w.beginBuild).2).alloc.aliveAt (w.alloc.create).1.index = true :=
    halive1
  have htlt1 : ∀ tv ∈ staged, tv.1 < ((w.beginBuild).2).pools.length := htlt
  have hfresh1 : ∀ tv ∈ staged,
      ((((w.beginBuild).2).sigs (w.alloc.create).1.index).testBit tv.1) = false := by
    intro tv htv
    show ((w.sigs (w.alloc.create).1.index).testBit tv.1) = false
    rw [hsig0]
    exact sig_zero_testBit _
  obtain ⟨hc1, hc2, hc3⟩ :=
    World.commitStaged_spec staged hw1 halive1' hnd htlt1 hfresh1
  have halloc2 :
      (((w.beginBuild).2).commitStaged (w.alloc.create).1.index staged).alloc
        = ((w.beginBuild).2).alloc := World.commitStaged_alloc _ _ _
  have hpend2 :
      (((w.beginBuild).2).commitStaged (w.alloc.create).1.index staged).pending
        = ((w.beginBuild).2).pending := World.commitStaged_pending _ _ _
  have hsigfinal : (((w.beginBuild).2).build ⟨(w.beginBuild).1.eid, staged⟩).sigs
      (w.beginBuild).1.eid.index = sigMask staged := by
    show (((w.beginBuild).2).commitStaged (w.alloc.create).1.index staged).sigs
      (w.alloc.create).1.index = sigMask staged
    rw [hc2]
    show staged.foldl (fun s tv => sigSetBit s tv.1) (w.sigs (w.alloc.create).1.index)
      = sigMask staged
    rw [hsig0]
    rfl
  have hgetfinal : ∀ tv ∈ staged,
      (((w.beginBuild).2).build ⟨(w.beginBuild).1.eid, staged⟩).getComponent
        (w.beginBuild).1.eid tv.1 = .ok tv.2 := by
    intro tv htv
    obtain ⟨p, hpool, hget⟩ := hc1 tv htv
    have hcond :
        (((w.beginBuild).2).build ⟨(w.beginBuild).1.eid, staged⟩).alloc.isAlive
          (w.beginBuild).1.eid = true := by
      show (((w.beginBuild).2).commitStaged (w.alloc.create).1.index staged).alloc.isAlive
        (w.alloc.create).1 = true
      rw [halloc2]
      exact hAliveFull
    have hpool2 :
        (((w.beginBuild).2).build ⟨(w.beginBuild).1.eid, staged⟩).pools[tv.1]?
          = some p := hpool
    simp only [World.getComponent, hcond, if_true, hpool2]
    exact hget
  have hall : (((w.beginBuild).2).build ⟨(w.beginBuild).1.eid, staged⟩).alloc
      = (w.alloc.create).2 := halloc2
  have hvis : (w.beginBuild).1.eid.index
      ∈ (((w.beginBuild).2).build ⟨(w.beginBuild).1.eid, staged⟩).visible := by
    unfold World.visible
    rw [List.mem_filter]
    constructor
    · rw [List.mem_range, hall]
      exact Allocator.aliveAt_lt halive1
    · have h6 : (((w.beginBuild).2).build ⟨(w.beginBuild).1.eid, staged⟩).alloc.aliveAt
          (w.beginBuild).1.eid.index = true := by
        rw [hall]
        exact halive1
      have h7 : (w.beginBuild).1.eid.index
          ∉ (((w.beginBuild).2).build ⟨(w.beginBuild).1.eid, staged⟩).pending := by
        have h8 : (((w.beginBuild).2).build ⟨(w.beginBuild).1.eid, staged⟩).pending
            = (((w.beginBuild).2).commitStaged (w.alloc.create).1.index staged).pending.filter
                (fun x => x ≠ (w.alloc.create).1.index) := rfl
        rw [h8, hpend2]
        show (w.alloc.create).1.index ∉ (((w.alloc.create).1.index :: w.pending).filter
          (fun x => x ≠ (w.alloc.create).1.index))
        intro hc
        have hpred := (List.mem_filter.mp hc).2
        simp at hpred
      simp [h6, h7, List.contains]
  have hqfinal : ∀ q : QuerySpec,
      ((w.beginBuild).1.eid.index
          ∈ (((w.beginBuild).2).build ⟨(w.beginBuild).1.eid, staged⟩).queryMatch q)
        ↔ matchesSig (sigMask staged) q.withMask q.withoutMask = true := by
    intro q
    unfold World.queryMatch
    constructor
    · intro hmem2
      have hm := (List.mem_filter.mp hmem2).2
      simpa [hsigfinal] using hm
    · intro hm
      apply List.mem_filter.mpr
      refine ⟨hvis, ?_⟩
      simpa [hsigfinal] using hm
  have hpre : ∀ q : QuerySpec,
      (w.beginBuild).1.eid.index ∉ ((w.beginBuild).2).queryMatch q := by
    intro q hcon
    unfold World.queryMatch World.visible at hcon
    have h1 := (List.mem_filter.mp hcon).1
    have h2 := (List.mem_filter.mp h1).2
    have h3 : (w.beginBuild).1.eid.index ∈ ((w.beginBuild).2).pending := by
      show (w.alloc.create).1.index ∈ ((w.alloc.create).1.index :: w.pending)
      exact List.mem_cons_self _ _
    simp at h2
    exact h2.2 h3
  have hdup : ∀ t v v2, (t, v) ∈ staged →
      (Builder.mk (w.beginBuild).1.eid staged).withComponent t v2
        = .error .DuplicateComponent := by
    intro t v v2 htv
    have hmem : t ∈ staged.map Prod.fst := List.mem_map_of_mem Prod.fst htv
    have hcont : ((staged.map Prod.fst).contains t) = true := by
      simp [List.contains, hmem]
    simp only [Builder.withComponent, hcont, if_true]
  exact ⟨hpre, hdup, hgetfinal, hsigfinal, hqfinal⟩

theorem builder_atomicity_witness :
    (([((0 : Nat), (5 : Nat)), (1, 6)].map Prod.fst).Nodup)
    ∧ (∀ tv ∈ [((0 : Nat), (5 : Nat)), (1, 6)], tv.1 < (initWorld Nat 2).pools.length)
    ∧ ((∀ q : QuerySpec,
        ((initWorld Nat 2).beginBuild).1.eid.index
          ∉ ((initWorld Nat 2).beginBuild).2.queryMatch q)
      ∧ (∀ t v v2, (t, v) ∈ [((0 : Nat), (5 : Nat)), (1, 6)] →
          (Builder.mk ((initWorld Nat 2).beginBuild).1.eid
              [((0 : Nat), (5 : Nat)), (1, 6)]).withComponent t v2
            = .error .DuplicateComponent)
      ∧ (∀ tv ∈ [((0 : Nat), (5 : Nat)), (1, 6)],
          (((initWorld Nat 2).beginBuild).2.build
              ⟨((initWorld Nat 2).beginBuild).1.eid,
                [((0 : Nat), (5 : Nat)), (1, 6)]⟩).getComponent
            ((initWorld Nat 2).beginBuild).1.eid tv.1 = .ok tv.2)
      ∧ ((((initWorld Nat 2).beginBuild).2.build
            ⟨((initWorld Nat 2).beginBuild).1.eid,
              [((0 : Nat), (5 : Nat)), (1, 6)]⟩).sigs
          ((initWorld Nat 2).beginBuild).1.eid.index
            = sigMask [((0 : Nat), (5 : Nat)), (1, 6)])
      ∧ (∀ q : QuerySpec,
          (((initWorld Nat 2).beginBuild).1.eid.index
              ∈ (((initWorld Nat 2).beginBuild).2.build
                  ⟨((initWorld Nat 2).beginBuild).1.eid,
                    [((0 : Nat), (5 : Nat)), (1, 6)]⟩).queryMatch q)
            ↔ matchesSig (sigMask [((0 : Nat), (5 : Nat)), (1, 6)])
                q.withMask q.withoutMask = true)) :=
  ⟨by decide, by decide,
    builder_atomicity (initWorld Nat 2) [((0 : Nat), (5 : Nat)), (1, 6)]
      (inv_initWorld Nat 2) (by decide) (by decide)⟩

end Arepy
